import Mathlib

/-!
Verification of the structural soup engine of the jolecule molecular viewer.

The definitions below are a shallow embedding of the engine found in the
repository source (`Soup`, its parser `makeAtomsFromPdbLines` / `addAtom`,
bond inference `calcBondsStrategic` / `assignBondsToAtoms`, and the
secondary-structure analyzer `findSecondaryStructure`).  JavaScript numbers
are idealized as exact rationals (`ℚ`); the results of the fallible numeric
parsers `parseInt` / `parseFloat` are `Option` values, with `none` playing
the role of IEEE `NaN`.  Distance comparisons `v3.distance p q ≤ c` from the
source are embedded as comparisons of squared distances `distSq p q ≤ c * c`,
which is equivalent since both sides are nonnegative and squaring is
monotone; the helper module `v3` is not part of the sources handled here, so
its operations are modelled from the spec.

Display-only state of the source `Soup` (color table, selection bit arrays,
`resIds` labels, grid B-factor limits, view/camera classes) is not needed by
any property below and is omitted from the embedding.
-/

namespace Jolecule

/-! ### JavaScript string and number primitives -/

/-- JS `s.substr(start, len)` for nonnegative arguments (also the behaviour
of `s.slice(start, start+len)` there): out-of-range parts give `""`. -/
def substr (s : String) (start len : ℕ) : String :=
  ((s.toList.drop start).take len).asString

/-- lodash `_.trim`: strip leading and trailing whitespace. -/
def trimStr (s : String) : String :=
  (((s.toList.dropWhile Char.isWhitespace).reverse.dropWhile
      Char.isWhitespace).reverse).asString

/-- `deleteNumbers` from the source: `text.replace(/\d+/, '')` removes the
first maximal run of digits only (the regex has no `g` flag). -/
def deleteNumbersAux : List Char → List Char
  | [] => []
  | c :: cs =>
      if c.isDigit then cs.dropWhile Char.isDigit else c :: deleteNumbersAux cs

def deleteNumbers (s : String) : String :=
  (deleteNumbersAux s.toList).asString

def digitsToNat (ds : List Char) : ℕ :=
  ds.foldl (fun acc c => 10 * acc + (c.toNat - 48)) 0

/-- JS `parseInt(s)` (radix 10, as used on the fixed decimal columns of the
format): skip leading whitespace, optional sign, then leading digits;
`none` models the `NaN` result when no digit is found. -/
def parseIntJS (s : String) : Option ℤ :=
  let l := s.toList.dropWhile Char.isWhitespace
  let sign : ℤ := if l.head? = some (Char.ofNat 45) then -1 else 1
  let l := if l.head? = some (Char.ofNat 45) ∨ l.head? = some (Char.ofNat 43)
           then l.tail else l
  let ds := l.takeWhile Char.isDigit
  if ds = [] then none else some (sign * digitsToNat ds)

/-- JS `parseFloat(s)` on plain decimal notation (the only notation the
fixed-width coordinate columns of the format produce): skip leading
whitespace, optional sign, integer digits, optional fraction; `none` models
the `NaN` result when no digit is found. -/
def parseFloatJS (s : String) : Option ℚ :=
  let l := s.toList.dropWhile Char.isWhitespace
  let sign : ℚ := if l.head? = some (Char.ofNat 45) then -1 else 1
  let l := if l.head? = some (Char.ofNat 45) ∨ l.head? = some (Char.ofNat 43)
           then l.tail else l
  let ip := l.takeWhile Char.isDigit
  let rest := l.dropWhile Char.isDigit
  match rest.head? with
  | some c =>
      if c = Char.ofNat 46 then
        let fp := rest.tail.takeWhile Char.isDigit
        if ip = [] ∧ fp = [] then none
        else some (sign * ((digitsToNat ip : ℚ) +
          (digitsToNat fp : ℚ) / (10 : ℚ) ^ fp.length))
      else if ip = [] then none else some (sign * (digitsToNat ip : ℚ))
  | none => if ip = [] then none else some (sign * (digitsToNat ip : ℚ))

/-- `charToInt` from the source (`c.charCodeAt(0)`), composed with the store
write: `''.charCodeAt(0)` is `NaN` in JS and every integer-typed-array write
coerces `NaN` to `0`, so the empty string is mapped to `0` here. -/
def charToInt (s : String) : ℕ :=
  match s.toList with
  | [] => 0
  | c :: _ => c.toNat

/-- `intToChar` from the source: `i ? String.fromCharCode(i) : ''`. -/
def intToChar (i : ℕ) : String :=
  if i = 0 then "" else String.singleton (Char.ofNat i)

def listStartsWith : List Char → List Char → Bool
  | [], _ => true
  | _ :: _, [] => false
  | c :: cs, d :: ds => c = d && listStartsWith cs ds

def listContainsSub (needle : List Char) : List Char → Bool
  | [] => listStartsWith needle []
  | d :: ds => listStartsWith needle (d :: ds) || listContainsSub needle ds

/-- lodash `_.includes(hay, needle)` on strings: substring containment. -/
def jsIncludesStr (hay needle : String) : Bool :=
  listContainsSub needle.toList hay.toList

/-- Float-typed-array store write: the parsed value, with the IEEE `NaN`
of a failed parse idealized as `0` (no property below reads the coordinate
of an atom whose numeric fields failed to parse, and the span computation
of `calcMaxLength` treats `NaN` and `0` identically: neither ever moves the
zero-initialized extrema). -/
def jsNumToStore (v : Option ℚ) : ℚ := v.getD 0

/-- Int32 store write: JS `ToInt32(NaN) = 0`. -/
def jsIntToStore (v : Option ℤ) : ℤ := v.getD 0

/-- JS `stored !== parsed` where `parsed` may be `NaN` (`none`):
`NaN` is unequal to everything. -/
def jsNeqNum (stored : ℤ) (parsed : Option ℤ) : Bool :=
  match parsed with
  | none => true
  | some v => stored ≠ v

/-- `getValueTableIndex` from the source: interning append-or-find; returns
the updated table and the index of the value. -/
def getValueTableIndex (valueList : List String) (value : String) :
    List String × ℕ :=
  if value ∈ valueList then (valueList, valueList.indexOf value)
  else (valueList ++ [value], valueList.length)

/-- `pushToListInDict` from the source, on a total-function model of the
dictionary (absent key = empty list). -/
def pushToListInDict {V : Type} (d : ℕ → List V) (k : ℕ) (v : V) :
    ℕ → List V :=
  fun k2 => if k2 = k then d k ++ [v] else d k2

/-! ### 3-vectors

The `v3` helper module is not among the sources handled here; its operations
are modelled from the spec over exact rationals.  `v3.distance` is only ever
used in comparisons against constants, embedded via squared distances. -/

structure V3 where
  x : ℚ
  y : ℚ
  z : ℚ
deriving DecidableEq, Repr

def v3sum (a b : V3) : V3 := ⟨a.x + b.x, a.y + b.y, a.z + b.z⟩

def v3diff (a b : V3) : V3 := ⟨a.x - b.x, a.y - b.y, a.z - b.z⟩

def v3scaled (a : V3) (c : ℚ) : V3 := ⟨a.x * c, a.y * c, a.z * c⟩

def v3neg (a : V3) : V3 := ⟨-a.x, -a.y, -a.z⟩

def v3dot (a b : V3) : ℚ := a.x * b.x + a.y * b.y + a.z * b.z

def v3cross (a b : V3) : V3 :=
  ⟨a.y * b.z - a.z * b.y, a.z * b.x - a.x * b.z, a.x * b.y - a.y * b.x⟩

def v3divScalar (a : V3) (c : ℚ) : V3 := ⟨a.x / c, a.y / c, a.z / c⟩

/-- Squared Euclidean distance; stands in for `v3.distance` in comparisons. -/
def v3distSq (a b : V3) : ℚ :=
  (a.x - b.x) * (a.x - b.x) + (a.y - b.y) * (a.y - b.y) +
    (a.z - b.z) * (a.z - b.z)

/-- Modelled from the spec: `v3.normalized` rescales a vector to unit length
by a positive factor.  Over `ℚ` a unit length is not representable, so the
direction vector itself represents the normalized result; every later use
(dot-product sign tests and negation in the sheet-consistency pass) is
invariant under positive rescaling. -/
def v3normalized (a : V3) : V3 := a

/-! ### Store rows

`store.js` (the typed-column `Store`) is not among the sources handled here;
following the spec (§4.1) a store is a table of per-row records, growth is
append, and `sort` consistently permutes rows by a comparator.  Column
widths are idealized as unbounded; writes to out-of-range rows are dropped
(`List.set` semantics), matching typed-array behaviour. -/

structure AtomRow where
  x : ℚ := 0
  y : ℚ := 0
  z : ℚ := 0
  bfactor : ℚ := 0
  alt : ℕ := 0
  iAtomType : ℕ := 0
  iElem : ℕ := 0
  iRes : ℕ := 0
  bondOffset : ℕ := 0
  bondCount : ℕ := 0
deriving DecidableEq, Repr

structure ResidueRow where
  atomOffset : ℕ := 0
  atomCount : ℕ := 0
  iCentralAtom : ℕ := 0
  iResType : ℕ := 0
  iChain : ℕ := 0
  resNum : ℤ := 0
  insCode : ℕ := 0
  sstruc : ℕ := 0
  isPolymer : ℕ := 0
deriving DecidableEq, Repr

/-- The soup state: atom, residue and bond tables, interning tables, the
parsing-error string, the directed hydrogen-bond partner map, the
normal-candidate lists and the averaged normals, and the bounding span. -/
structure Soup where
  parsingError : String := ""
  pdbId : String := ""
  atomStore : List AtomRow := []
  residueStore : List ResidueRow := []
  bondStore : List (ℕ × ℕ) := []
  chains : List String := []
  elemTable : List String := []
  atomTypeTable : List String := []
  resTypeTable : List String := []
  residueConhPartners : ℕ → List ℕ := fun _ => []
  residueNormals : ℕ → List V3 := fun _ => []
  residueNormal : ℕ → Option V3 := fun _ => none
  maxLength : ℚ := 0

def Soup.empty : Soup := {}

def Soup.getAtomCount (s : Soup) : ℕ := s.atomStore.length

def Soup.getResidueCount (s : Soup) : ℕ := s.residueStore.length

def Soup.getBondCount (s : Soup) : ℕ := s.bondStore.length

def atomAt (s : Soup) (i : ℕ) : AtomRow := s.atomStore.getD i {}

def resAt (s : Soup) (i : ℕ) : ResidueRow := s.residueStore.getD i {}

def setAtom (s : Soup) (i : ℕ) (f : AtomRow → AtomRow) : Soup :=
  { s with atomStore := s.atomStore.set i (f (atomAt s i)) }

def setRes (s : Soup) (i : ℕ) (f : ResidueRow → ResidueRow) : Soup :=
  { s with residueStore := s.residueStore.set i (f (resAt s i)) }

/-- `AtomProxy.pos`. -/
def Soup.posOf (s : Soup) (i : ℕ) : V3 :=
  ⟨(atomAt s i).x, (atomAt s i).y, (atomAt s i).z⟩

/-- `AtomProxy.elem` (element-table lookup). -/
def Soup.elemOf (s : Soup) (i : ℕ) : String :=
  s.elemTable.getD (atomAt s i).iElem ""

/-- `AtomProxy.atomType` (atom-type-table lookup). -/
def Soup.atomTypeOf (s : Soup) (i : ℕ) : String :=
  s.atomTypeTable.getD (atomAt s i).iAtomType ""

/-- `ResidueProxy.ss` as the character string. -/
def Soup.ssOf (s : Soup) (i : ℕ) : String := intToChar (resAt s i).sstruc

/-- `ResidueProxy.resType`. -/
def Soup.resTypeOf (s : Soup) (i : ℕ) : String :=
  s.resTypeTable.getD (resAt s i).iResType ""

/-- `ResidueProxy.getAtomIndices()`: the contiguous range of the residue. -/
def resAtomIndices (s : Soup) (iRes : ℕ) : List ℕ :=
  List.range' (resAt s iRes).atomOffset (resAt s iRes).atomCount

/-- `ResidueProxy.getAtom(atomType)`: first atom of the residue with the
given atom-type name, `none` when absent. -/
def Soup.getAtomOfType (s : Soup) (iRes : ℕ) (atomType : String) : Option ℕ :=
  (resAtomIndices s iRes).find? (fun iAtom => s.atomTypeOf iAtom = atomType)

/-- `ResidueProxy.checkAtomTypes`. -/
def Soup.checkAtomTypes (s : Soup) (iRes : ℕ) (atomTypes : List String) :
    Bool :=
  atomTypes.all (fun t => (s.getAtomOfType iRes t).isSome)

def primeCh : String := String.singleton (Char.ofNat 39)

def Soup.hasProteinBackbone (s : Soup) (iRes : ℕ) : Bool :=
  s.checkAtomTypes iRes ["CA", "N", "C"]

def Soup.hasSugarBackbone (s : Soup) (iRes : ℕ) : Bool :=
  s.checkAtomTypes iRes
    (["C3", "O3", "C5", "O4", "C1"].map (fun t => t ++ primeCh))

/-! ### Structure parser -/

def splitOnNewline : List Char → List (List Char)
  | [] => [[]]
  | c :: cs =>
      if c = Char.ofNat 10 then [] :: splitOnNewline cs
      else
        match splitOnNewline cs with
        | [] => [[c]]
        | l :: ls => (c :: l) :: ls

/-- JS `text.split(/\r?\n/)`: split at every newline, stripping one carriage
return right before it. -/
def splitLines (text : String) : List String :=
  (splitOnNewline text.toList).map (fun l =>
    if l.getLast? = some (Char.ofNat 13) then l.dropLast.asString
    else l.asString)

/-- The record-collection loop of `makeAtomsFromPdbLines`: keep every line
whose head is `ATOM` or `HETATM`, stop after a line whose head is `END`. -/
def collectAtomLines : List String → List String
  | [] => []
  | line :: rest =>
      let kept := if substr line 0 4 = "ATOM" ∨ substr line 0 6 = "HETATM"
                  then [line] else []
      if substr line 0 3 = "END" then kept
      else kept ++ collectAtomLines rest

/-- The fields extracted from one data line, as JS values (`none` = `NaN`). -/
structure PdbFields where
  atomType : String
  alt : String
  resType : String
  chain : String
  resNum : Option ℤ
  insCode : String
  x : Option ℚ
  y : Option ℚ
  z : Option ℚ
  bfactor : Option ℚ
  elem : String
deriving DecidableEq, Repr

/-- The field-extraction block of `makeAtomsFromPdbLines`.  Every step of the
JS original is total: `substr`/`_.trim` return strings on any input and
`parseInt`/`parseFloat` return `NaN` rather than throwing, so the
surrounding `try`/`catch` can never take its `catch` branch and is dropped
here. -/
def parseAtomFields (line : String) : PdbFields :=
  let atomType := trimStr (substr line 12 4)
  let elem0 := deleteNumbers (trimStr (substr line 76 2))
  { atomType := atomType
    alt := trimStr (substr line 16 1)
    resType := trimStr (substr line 17 3)
    chain := trimStr (((line.toList.drop 21).head?).elim "" String.singleton)
    resNum := parseIntJS (substr line 22 4)
    insCode := substr line 26 1
    x := parseFloatJS (substr line 30 7)
    y := parseFloatJS (substr line 38 7)
    z := parseFloatJS (substr line 46 7)
    bfactor := parseFloatJS (substr line 60 6)
    elem := if elem0 = "" then substr (deleteNumbers (trimStr atomType)) 0 1
            else elem0 }

/-- `Soup.addResidue`. -/
def Soup.addResidue (s : Soup) (iFirstAtomInRes : ℕ) (resNum : Option ℤ)
    (insCode chain resType : String) : Soup :=
  let ch := getValueTableIndex s.chains chain
  let rt := getValueTableIndex s.resTypeTable resType
  { s with
    chains := ch.1
    resTypeTable := rt.1
    residueStore := s.residueStore ++ [{
      atomOffset := iFirstAtomInRes
      atomCount := 0
      iChain := ch.2
      resNum := jsIntToStore resNum
      insCode := charToInt insCode
      iResType := rt.2 }] }

/-- The atom-row append (with interning) at the start of `Soup.addAtom`. -/
def Soup.appendAtomRow (s : Soup) (x y z bfactor : Option ℚ)
    (alt atomType elem : String) : Soup :=
  { s with
    atomTypeTable := (getValueTableIndex s.atomTypeTable atomType).1
    elemTable := (getValueTableIndex s.elemTable elem).1
    atomStore := s.atomStore ++ [{
      x := jsNumToStore x
      y := jsNumToStore y
      z := jsNumToStore z
      bfactor := jsNumToStore bfactor
      alt := charToInt alt
      iAtomType := (getValueTableIndex s.atomTypeTable atomType).2
      iElem := (getValueTableIndex s.elemTable elem).2
      bondCount := 0 }] }

/-- The residue-boundary test of `Soup.addAtom`: first atom ever, or the
(sequence number, insertion code) pair differs from the last residue's. -/
def Soup.isNewRes (s : Soup) (resNum : Option ℤ) (insCode : String) : Bool :=
  if s.getResidueCount = 0 then true
  else
    jsNeqNum (resAt s (s.getResidueCount - 1)).resNum resNum ||
      decide (intToChar (resAt s (s.getResidueCount - 1)).insCode ≠ insCode)

/-- `Soup.addAtom`. -/
def Soup.addAtom (s : Soup) (x y z bfactor : Option ℚ)
    (alt atomType elem resType : String) (resNum : Option ℤ)
    (insCode chain : String) : Soup :=
  let iAtom := s.atomStore.length
  let s1 := s.appendAtomRow x y z bfactor alt atomType elem
  let s2 := if s1.isNewRes resNum insCode then
      s1.addResidue iAtom resNum insCode chain resType
    else s1
  let iRes := s2.getResidueCount - 1
  let s3 := setRes s2 iRes (fun r => { r with atomCount := r.atomCount + 1 })
  setAtom s3 iAtom (fun a => { a with iRes := iRes })

def Soup.addAtomFields (s : Soup) (f : PdbFields) : Soup :=
  s.addAtom f.x f.y f.z f.bfactor f.alt f.atomType f.elem f.resType f.resNum
    f.insCode f.chain

/-- `Soup.makeAtomsFromPdbLines`. -/
def Soup.makeAtomsFromPdbLines (s : Soup) (pdbText pdbId : String) : Soup :=
  let s := { s with pdbId := pdbId }
  let lines := collectAtomLines (splitLines pdbText)
  if lines.length = 0 then { s with parsingError := "No atom lines" }
  else
    lines.foldl (fun s line =>
      if substr line 0 4 = "ATOM" ∨ substr line 0 6 = "HETATM" then
        s.addAtomFields (parseAtomFields line)
      else s) s

/-! ### Residue classification and central atoms -/

/-- `Soup.getCenter`: arithmetic mean of the given atom positions
(the empty-list division by zero is unreachable from a load: every parsed
residue owns at least one atom). -/
def Soup.getCenter (s : Soup) (atomIndices : List ℕ) : V3 :=
  v3divScalar
    (atomIndices.foldl (fun acc iAtom => v3sum acc (s.posOf iAtom)) ⟨0, 0, 0⟩)
    atomIndices.length

/-- `Soup.getIAtomClosest`, faithfully including its treatment of the first
index (which becomes the running answer without its distance being
measured): the running minimum starts at `1E6` (squared here) and is only
ever compared against the distances of the subsequent indices. -/
def Soup.getIAtomClosest (s : Soup) (pos : V3) (atomIndices : List ℕ) :
    Option ℕ :=
  (atomIndices.foldl (fun acc iAtom =>
      match acc.1 with
      | none => (some iAtom, acc.2)
      | some _ =>
          let d := v3distSq pos (s.posOf iAtom)
          if d < acc.2 then (some iAtom, d) else acc)
    ((none : Option ℕ), ((10 : ℚ) ^ 6) * ((10 : ℚ) ^ 6))).1

/-- `Soup.assignResidueSsAndCentralAtoms`.  A `null` central atom (empty
residue, unreachable from a load) is stored as `0`, matching the uint32
coercion of `null`. -/
def Soup.assignResidueSsAndCentralAtoms (s : Soup) : Soup :=
  (List.range s.getResidueCount).foldl (fun s iRes =>
    if s.hasProteinBackbone iRes then
      setRes s iRes (fun r =>
        { r with
          iCentralAtom := (s.getAtomOfType iRes "CA").getD 0
          sstruc := charToInt "C"
          isPolymer := 1 })
    else if s.hasSugarBackbone iRes then
      setRes s iRes (fun r =>
        { r with
          iCentralAtom := (s.getAtomOfType iRes ("C3" ++ primeCh)).getD 0
          sstruc := charToInt "D"
          isPolymer := 1 })
    else
      let ss := if s.resTypeOf iRes = "HOH" then charToInt "W"
                else if s.resTypeOf iRes = "XXX" then charToInt "G"
                else charToInt "-"
      let center := s.getCenter (resAtomIndices s iRes)
      setRes s iRes (fun r =>
        { r with
          iCentralAtom :=
            (s.getIAtomClosest center (resAtomIndices s iRes)).getD 0
          sstruc := ss
          isPolymer := 0 })) s

/-! ### Bounding span -/

/-- One dimension of an atom position (`comp` in `calcMaxLength`). -/
def dimComp (v : V3) (iDim : ℕ) : ℚ :=
  if iDim = 0 then v.x else if iDim = 1 then v.y else v.z

/-- The per-dimension extrema loops of `calcMaxLength`: both accumulators
start at `0.0` and are updated by strict comparisons. -/
def Soup.dimMaximum (s : Soup) (iDim : ℕ) : ℚ :=
  (List.range s.getAtomCount).foldl (fun m iAtom =>
    if m < dimComp (s.posOf iAtom) iDim then dimComp (s.posOf iAtom) iDim
    else m) 0

def Soup.dimMinimum (s : Soup) (iDim : ℕ) : ℚ :=
  (List.range s.getAtomCount).foldl (fun m iAtom =>
    if m > dimComp (s.posOf iAtom) iDim then dimComp (s.posOf iAtom) iDim
    else m) 0

/-- `Soup.calcMaxLength`. -/
def Soup.calcMaxLength (s : Soup) : Soup :=
  let span := fun iDim => s.dimMaximum iDim - s.dimMinimum iDim
  { s with maxLength := max (span 0) (max (span 1) (span 2)) }

/-! ### Bond inference -/

def CHONPS : List String := ["C", "H", "O", "N", "P", "S"]

def smallCutoffSq : ℚ := (12 / 10) * (12 / 10)

def mediumCutoffSq : ℚ := (19 / 10) * (19 / 10)

def largeCutoffSq : ℚ := (24 / 10) * (24 / 10)

/-- `isBonded` from `calcBondsStrategic` (with atom proxies replaced by
atom indices).  The source opens with an alternate-location rejection, but
`AtomProxy` exposes no `alt` getter, so `atom1.alt` and `atom2.alt` are
`undefined` there: `undefined !== undefined` is false, the rejection never
fires, and the executed test is the element-classed distance test alone
(the source already compares squared distances). -/
def Soup.isBonded (s : Soup) (iAtom1 iAtom2 : ℕ) : Bool :=
  let cutoffSq :=
    if s.elemOf iAtom1 = "H" ∨ s.elemOf iAtom2 = "H" then smallCutoffSq
    else if s.elemOf iAtom1 ∈ CHONPS ∧ s.elemOf iAtom2 ∈ CHONPS then
      mediumCutoffSq
    else largeCutoffSq
  v3distSq (s.posOf iAtom1) (s.posOf iAtom2) ≤ cutoffSq

/-- `Soup.calcBondsStrategic`: reset the bond table, then for every residue
enumerate the full ordered product of its atom indices and append both
directions of every bonded pair. -/
def Soup.calcBondsStrategic (s : Soup) : Soup :=
  { s with
    bondStore :=
      (List.range s.getResidueCount).flatMap (fun iRes1 =>
        (resAtomIndices s iRes1).flatMap (fun iAtom1 =>
          (resAtomIndices s iRes1).flatMap (fun iAtom2 =>
            if s.isBonded iAtom1 iAtom2 then
              [(iAtom1, iAtom2), (iAtom2, iAtom1)]
            else []))) }

/-- Insertion of one bond into a run sorted by first atom index. -/
def insertBond (b : ℕ × ℕ) : List (ℕ × ℕ) → List (ℕ × ℕ)
  | [] => [b]
  | c :: l => if b.1 ≤ c.1 then b :: c :: l else c :: insertBond b l

/-- `Store.sort` applied to the bond table with the comparator
`iAtom1[i] - iAtom1[j]`.  Modelled from the spec (§4.1: `sort(comparator)`
consistently reorders the rows by the comparator); any reordering that is a
permutation sorted by first atom index satisfies that contract. -/
def sortBonds : List (ℕ × ℕ) → List (ℕ × ℕ)
  | [] => []
  | b :: l => insertBond b (sortBonds l)

/-- The offset/count scan of `assignBondsToAtoms`, over the atom table:
whenever the first atom changes, record the bond index as that atom's
offset; always increment the current first atom's count. -/
def assignScan (atoms : List AtomRow) :
    List (ℕ × ℕ) → ℕ → Option ℕ → List AtomRow
  | [], _, _ => atoms
  | b :: rest, iBond, cur =>
      let atoms :=
        if cur ≠ some b.1 then
          atoms.set b.1 { atoms.getD b.1 {} with bondOffset := iBond }
        else atoms
      let atoms :=
        atoms.set b.1
          { atoms.getD b.1 {} with
            bondCount := (atoms.getD b.1 {}).bondCount + 1 }
      assignScan atoms rest (iBond + 1) (some b.1)

/-- The value of the `iAtom1` tracker of the scan after a list of bonds:
the first atom of the last bond, or the incoming value for an empty
list. -/
def curAfter (c : Option ℕ) : List (ℕ × ℕ) → Option ℕ
  | [] => c
  | b :: l => curAfter (some b.1) l

/-- `Soup.assignBondsToAtoms`: sort bonds by first atom index, reset every
atom's bond count, then scan for run boundaries. -/
def Soup.assignBondsToAtoms (s : Soup) : Soup :=
  let sorted := sortBonds s.bondStore
  let atoms := s.atomStore.map (fun a => { a with bondCount := 0 })
  { s with
    bondStore := sorted
    atomStore := assignScan atoms sorted 0 none }

/-! ### Secondary structure -/

/-- The close-pair enumeration of the `SpaceHash`.  `pairs.js` is not among
the sources handled here; per the spec (§4.3) `closePairs()` yields index
pairs `(i, j)`, `i ≠ j`, covering every pair within one cell — a superset
of the true neighbours, filtered by the caller's exact distance test.  The
model enumerates every unordered pair once, a valid instance of that
contract. -/
def allPairs (n : ℕ) : List (ℕ × ℕ) :=
  (List.range n).flatMap (fun j => (List.range j).map (fun i => (i, j)))

/-- The backbone O/N collection loop of `findBackboneHbonds`: per polymer
residue, its first `O` atom then its first `N` atom, when present. -/
def Soup.collectBackboneON (s : Soup) : List ℕ :=
  (List.range s.getResidueCount).flatMap (fun iRes =>
    if (resAt s iRes).isPolymer = 1 then
      ["O", "N"].filterMap (fun t => s.getAtomOfType iRes t)
    else [])

def hbondCutoffSq : ℚ := (35 / 10) * (35 / 10)

/-- One close pair of `findBackboneHbonds`: orientation-normalize to
(N, O), skip same-residue pairs, record `residue(O)` as a partner of
`residue(N)` when within the cutoff. -/
def Soup.hbondStep (s : Soup) (idxs : List ℕ) (p : ℕ × ℕ) : Soup :=
  let a0 := idxs.getD p.1 0
  let a1 := idxs.getD p.2 0
  let pr := if s.elemOf a0 = "O" ∧ s.elemOf a1 = "N" then (a1, a0)
            else (a0, a1)
  if s.elemOf pr.1 = "N" ∧ s.elemOf pr.2 = "O" then
    let iRes0 := (atomAt s pr.1).iRes
    let iRes1 := (atomAt s pr.2).iRes
    if iRes0 = iRes1 then s
    else if v3distSq (s.posOf pr.1) (s.posOf pr.2) ≤ hbondCutoffSq then
      { s with
        residueConhPartners := pushToListInDict s.residueConhPartners
          iRes0 iRes1 }
    else s
  else s

/-- `Soup.findBackboneHbonds`. -/
def Soup.findBackboneHbonds (s : Soup) : Soup :=
  let idxs := s.collectBackboneON
  (allPairs idxs.length).foldl (fun s p => s.hbondStep idxs p) s

/-- `isCONHBonded` from `findSecondaryStructure`: bounds-checked membership
in the directed partner map (the arguments can be negative in the source,
hence `ℤ`). -/
def Soup.isCONHBonded (s : Soup) (iRes0 iRes1 : ℤ) : Bool :=
  let nRes : ℤ := s.getResidueCount
  if iRes1 < 0 ∨ nRes ≤ iRes1 then false
  else if iRes0 < 0 ∨ nRes ≤ iRes0 then false
  else decide (iRes0.toNat ∈ s.residueConhPartners iRes1.toNat)

/-- `vecBetweenResidues`: difference of the central-atom positions. -/
def Soup.vecBetweenResidues (s : Soup) (iRes0 iRes1 : ℕ) : V3 :=
  v3diff (s.posOf (resAt s iRes0).iCentralAtom)
    (s.posOf (resAt s iRes1).iCentralAtom)

/-- `Soup.getNucleotideNormal` (missing backbone atoms, unreachable from a
load for the `D`-tagged residues this is applied to, default to atom 0). -/
def Soup.getNucleotideNormal (s : Soup) (iRes : ℕ) : V3 :=
  let c3 := s.posOf ((s.getAtomOfType iRes ("C3" ++ primeCh)).getD 0)
  let c5 := s.posOf ((s.getAtomOfType iRes ("C5" ++ primeCh)).getD 0)
  let c1 := s.posOf ((s.getAtomOfType iRes ("C1" ++ primeCh)).getD 0)
  v3cross (v3diff c3 c5) (v3diff c1 c3)

def pushNormal (s : Soup) (iRes : ℕ) (v : V3) : Soup :=
  { s with residueNormals := pushToListInDict s.residueNormals iRes v }

def setSs (s : Soup) (iRes : ℕ) (c : String) : Soup :=
  setRes s iRes (fun r => { r with sstruc := charToInt c })

/-- The four beta-sheet evidence patterns for a pair `iRes1 < iRes2`. -/
def Soup.betaPar1 (s : Soup) (iRes1 iRes2 : ℕ) : Bool :=
  s.isCONHBonded iRes1 ((iRes2 : ℤ) + 1) &&
    s.isCONHBonded ((iRes2 : ℤ) - 1) iRes1

def Soup.betaPar2 (s : Soup) (iRes1 iRes2 : ℕ) : Bool :=
  s.isCONHBonded ((iRes1 : ℤ) - 1) iRes2 &&
    s.isCONHBonded iRes2 ((iRes1 : ℤ) + 1)

def Soup.betaAnti1 (s : Soup) (iRes1 iRes2 : ℕ) : Bool :=
  s.isCONHBonded iRes1 iRes2 && s.isCONHBonded iRes2 iRes1

def Soup.betaAnti2 (s : Soup) (iRes1 iRes2 : ℕ) : Bool :=
  s.isCONHBonded ((iRes1 : ℤ) - 1) ((iRes2 : ℤ) + 1) &&
    s.isCONHBonded ((iRes2 : ℤ) - 1) ((iRes1 : ℤ) + 1)

def Soup.betaAnyEvidence (s : Soup) (iRes1 iRes2 : ℕ) : Bool :=
  s.betaPar1 iRes1 iRes2 || s.betaPar2 iRes1 iRes2 ||
    s.betaAnti1 iRes1 iRes2 || s.betaAnti2 iRes1 iRes2

/-- The body of the inner `iRes2` loop of `findSecondaryStructure`:
beta-sheet pair testing for `iRes1 < iRes2`, skipping pairs at most 5
apart, accumulating the normal candidates of the two antiparallel
patterns, and finally tagging every collected index `E`. -/
def Soup.betaStep (s : Soup) (iRes1 iRes2 : ℕ) : Soup :=
  if |(iRes1 : ℤ) - (iRes2 : ℤ)| ≤ 5 then s
  else
    let b1 := s.betaPar1 iRes1 iRes2
    let b2 := s.betaPar2 iRes1 iRes2
    let b3 := s.betaAnti1 iRes1 iRes2
    let b4 := s.betaAnti2 iRes1 iRes2
    let idxs :=
      (if b1 then [iRes1, iRes2] else []) ++
      (if b2 then [iRes1, iRes2] else []) ++
      (if b3 then [iRes1, iRes2] else []) ++
      (if b4 then [iRes1, iRes2] else [])
    let s :=
      if b3 then
        let normal := s.vecBetweenResidues iRes1 iRes2
        pushNormal (pushNormal s iRes1 normal) iRes2 (v3scaled normal (-1))
      else s
    let s :=
      if b4 then
        let normal := s.vecBetweenResidues iRes1 iRes2
        pushNormal (pushNormal s iRes1 (v3scaled normal (-1))) iRes2 normal
      else s
    idxs.foldl (fun s iRes => setSs s iRes "E") s

/-- One iteration of the main residue loop of `findSecondaryStructure`:
the nucleic normal candidate, the α-helix window, the 3₁₀-helix window,
then the beta-sheet pair scan over `iRes2 > iRes1`. -/
def Soup.ssMainIter (s : Soup) (iRes1 : ℕ) : Soup :=
  let s :=
    if jsIncludesStr "DR" (s.ssOf iRes1) then
      pushNormal s iRes1 (s.getNucleotideNormal iRes1)
    else s
  let s :=
    if s.isCONHBonded iRes1 ((iRes1 : ℤ) + 4) &&
        s.isCONHBonded ((iRes1 : ℤ) + 1) ((iRes1 : ℤ) + 5) then
      let normal1 := s.vecBetweenResidues iRes1 (iRes1 + 4)
      let normal2 := s.vecBetweenResidues (iRes1 + 1) (iRes1 + 5)
      (List.range' (iRes1 + 1) 4).foldl (fun s iRes2 =>
        pushNormal (pushNormal (setSs s iRes2 "H") iRes2 normal1) iRes2
          normal2) s
    else s
  let s :=
    if s.isCONHBonded iRes1 ((iRes1 : ℤ) + 3) &&
        s.isCONHBonded ((iRes1 : ℤ) + 1) ((iRes1 : ℤ) + 4) then
      let normal1 := s.vecBetweenResidues iRes1 (iRes1 + 3)
      let normal2 := s.vecBetweenResidues (iRes1 + 1) (iRes1 + 4)
      (List.range' (iRes1 + 1) 3).foldl (fun s iRes2 =>
        pushNormal (pushNormal (setSs s iRes2 "H") iRes2 normal1) iRes2
          normal2) s
    else s
  (List.range' (iRes1 + 1) (s.getResidueCount - (iRes1 + 1))).foldl
    (fun s iRes2 => s.betaStep iRes1 iRes2) s

def Soup.ssMainLoop (s : Soup) : Soup :=
  (List.range s.getResidueCount).foldl Soup.ssMainIter s

/-- The normal-averaging pass: for every residue with at least one
candidate, the normalized sum of its candidates. -/
def Soup.averageNormals (s : Soup) : Soup :=
  (List.range s.getResidueCount).foldl (fun s iRes =>
    if s.residueNormals iRes ≠ [] then
      { s with
        residueNormal := fun k =>
          if k = iRes then
            some (v3normalized
              ((s.residueNormals iRes).foldl v3sum ⟨0, 0, 0⟩))
          else s.residueNormal k }
    else s) s

/-- The sheet-normal consistency pass: scanning in increasing order, negate
the later normal of an adjacent pair of `E` residues whose normals (both
present — a vector object is always truthy) have negative dot product. -/
def Soup.flipStep (s : Soup) (iRes : ℕ) : Soup :=
  if s.ssOf (iRes - 1) = "E" ∧ (s.residueNormal (iRes - 1)).isSome ∧
      s.ssOf iRes = "E" ∧ (s.residueNormal iRes).isSome then
    if v3dot ((s.residueNormal iRes).getD ⟨0, 0, 0⟩)
        ((s.residueNormal (iRes - 1)).getD ⟨0, 0, 0⟩) < 0 then
      { s with
        residueNormal := fun k =>
          if k = iRes then (s.residueNormal iRes).map v3neg
          else s.residueNormal k }
    else s
  else s

def Soup.flipPass (s : Soup) : Soup :=
  (List.range' 1 (s.getResidueCount - 1)).foldl Soup.flipStep s

/-- `Soup.findSecondaryStructure`. -/
def Soup.findSecondaryStructure (s : Soup) : Soup :=
  (((s.findBackboneHbonds).ssMainLoop).averageNormals).flipPass

/-- `Soup.load` (the structure-engine part: parse, classify residues,
infer bonds, assign adjacency, compute the bounding span, infer secondary
structure). -/
def Soup.load (s : Soup) (pdbId pdbText : String) : Soup :=
  let s := s.makeAtomsFromPdbLines pdbText pdbId
  let s := s.assignResidueSsAndCentralAtoms
  let s := s.calcBondsStrategic
  let s := s.assignBondsToAtoms
  let s := s.calcMaxLength
  s.findSecondaryStructure

/-! ### Claim-side definitions

These definitions follow the wording of the specification, to be compared
with the source-derived definitions above. -/

/-- The (sequence number, insertion code) key of a data line, as the spec
describes the residue-boundary test. -/
def recordKey (line : String) : ℤ × String :=
  (((parseAtomFields line).resNum).getD 0, (parseAtomFields line).insCode)

/-- Number of boundaries between consecutive differing keys, given the key
of the previous record. -/
def boundaryCount (k : ℤ × String) : List (ℤ × String) → ℕ
  | [] => 0
  | k2 :: ks => (if k2 ≠ k then 1 else 0) + boundaryCount k2 ks

/-- The number of maximal contiguous runs of equal keys. -/
def runCount : List (ℤ × String) → ℕ
  | [] => 0
  | k :: ks => 1 + boundaryCount k ks

/-- A well-formed data line: all numeric fields parse, and the insertion
code survives the char-code round trip (it is empty, or a single non-NUL
character). -/
def WellFormedAtomLine (line : String) : Prop :=
  (parseAtomFields line).resNum.isSome = true ∧
  (parseAtomFields line).x.isSome = true ∧
  (parseAtomFields line).y.isSome = true ∧
  (parseAtomFields line).z.isSome = true ∧
  (parseAtomFields line).bfactor.isSome = true ∧
  intToChar (charToInt (parseAtomFields line).insCode) =
    (parseAtomFields line).insCode

instance (line : String) : Decidable (WellFormedAtomLine line) := by
  unfold WellFormedAtomLine
  infer_instance

/-- The (sequence number, insertion code) key of an extracted record. -/
def fieldKey (f : PdbFields) : ℤ × String := (f.resNum.getD 0, f.insCode)

/-- The key of the most recently added residue, as `addAtom` reads it back
from the residue store (`resNum` as stored, `insCode` through
`intToChar`). -/
def lastResKey (s : Soup) : ℤ × String :=
  ((resAt s (s.getResidueCount - 1)).resNum,
   intToChar (resAt s (s.getResidueCount - 1)).insCode)

/-- The squared bond cutoff as the spec words it: any hydrogen involved →
1.2Å, else both elements organic (C,H,O,N,P,S) → 1.9Å, else 2.4Å. -/
def claimBondCutoffSq (elem1 elem2 : String) : ℚ :=
  if elem1 = "H" ∨ elem2 = "H" then (12 / 10) * (12 / 10)
  else if elem1 ∈ CHONPS ∧ elem2 ∈ CHONPS then (19 / 10) * (19 / 10)
  else (24 / 10) * (24 / 10)

/-- The bond test as the spec words it: reject when both alternate-location
codes are non-empty and differ; otherwise bonded iff the squared distance
is at most the squared cutoff. -/
def claimIsBonded (elem1 elem2 alt1 alt2 : String) (p1 p2 : V3) : Prop :=
  ¬(alt1 ≠ "" ∧ alt2 ≠ "" ∧ alt1 ≠ alt2) ∧
    v3distSq p1 p2 ≤ claimBondCutoffSq elem1 elem2

instance (elem1 elem2 alt1 alt2 : String) (p1 p2 : V3) :
    Decidable (claimIsBonded elem1 elem2 alt1 alt2 p1 p2) := by
  unfold claimIsBonded
  infer_instance

/-- The alternate-location code as the parser stored it (the value the
spec's alt-loc clause refers to): the store holds the char code, read back
through `intToChar`.  The staged `AtomProxy` exposes no getter for this
column, so the running program never reads it. -/
def storedAlt (s : Soup) (i : ℕ) : String := intToChar (atomAt s i).alt

/-- The coordinates of all atoms in one dimension. -/
def atomCoords (s : Soup) (iDim : ℕ) : List ℚ :=
  (List.range s.getAtomCount).map (fun i => dimComp (s.posOf i) iDim)

/-- The axis-aligned span as the claim words it: maximum coordinate minus
minimum coordinate over all atoms (of a non-empty structure). -/
def claimSpan (s : Soup) (iDim : ℕ) : ℚ :=
  ((atomCoords s iDim).max?).getD 0 - ((atomCoords s iDim).min?).getD 0

def claimMaxLength (s : Soup) : ℚ :=
  max (claimSpan s 0) (max (claimSpan s 1) (claimSpan s 2))

/-- The amended span: the code's extrema accumulators start at `0`, so the
computed span is that of the atom coordinates together with the origin. -/
def originSpan (s : Soup) (iDim : ℕ) : ℚ :=
  (atomCoords s iDim).foldr max 0 - (atomCoords s iDim).foldr min 0

def originMaxLength (s : Soup) : ℚ :=
  max (originSpan s 0) (max (originSpan s 1) (originSpan s 2))

/-- Residue atom ranges partition the atom table (every atom index lies in
exactly one residue's contiguous range). -/
def ResidueRangesPartition (s : Soup) : Prop :=
  ∀ a, a < s.getAtomCount →
    ((List.range s.getResidueCount).flatMap
      (fun i => resAtomIndices s i)).count a = 1

instance (s : Soup) : Decidable (ResidueRangesPartition s) := by
  unfold ResidueRangesPartition
  infer_instance

/-- Backbone O/N geometry for a directed hydrogen bond from residue `a`
(its first `O` atom) to residue `b` (its first `N` atom): both residues are
polymer, the two atoms carry the matching element symbols, belong to their
residues, and lie within the 3.5Å cutoff. -/
def GeoHbond (s : Soup) (a b : ℕ) : Prop :=
  ∃ jO jN,
    s.getAtomOfType a "O" = some jO ∧ s.getAtomOfType b "N" = some jN ∧
    s.elemOf jO = "O" ∧ s.elemOf jN = "N" ∧
    (atomAt s jO).iRes = a ∧ (atomAt s jN).iRes = b ∧
    (resAt s a).isPolymer = 1 ∧ (resAt s b).isPolymer = 1 ∧
    a < s.getResidueCount ∧ b < s.getResidueCount ∧ a ≠ b ∧
    v3distSq (s.posOf jO) (s.posOf jN) ≤ hbondCutoffSq

/-- A beta-sheet pattern write on residue `r` by the pair `(i1, i2)`:
the pair is more than 5 apart, some beta evidence holds, and `r` is one of
the two residues (which the code then tags `E`). -/
def BetaWrites (s : Soup) (i1 i2 r : ℕ) : Prop :=
  5 < |(i1 : ℤ) - (i2 : ℤ)| ∧ s.betaAnyEvidence i1 i2 = true ∧
    (r = i1 ∨ r = i2)

instance (s : Soup) (i1 i2 r : ℕ) : Decidable (BetaWrites s i1 i2 r) := by
  unfold BetaWrites
  infer_instance

/-- The post-condition of the sheet-normal consistency pass at the adjacent
pair `(i-1, i)`: when both residues are tagged `E` and both have a defined
averaged normal, the dot product of the two normals is nonnegative. -/
def PairOk (s : Soup) (i : ℕ) : Prop :=
  s.ssOf (i - 1) = "E" → s.ssOf i = "E" →
  ∀ v0 v1, s.residueNormal (i - 1) = some v0 → s.residueNormal i = some v1 →
  0 ≤ v3dot v1 v0

/-! ### Concrete inputs for witnesses and counterexamples -/

/-- Three well-formed data lines: residues (1, ' '), (1, ' '), (2, ' ')
with a chain change between the first two lines. -/
def c1Text : String :=
  "ATOM         N   ALA A   1       1.000   2.000   3.000  1.00  0.00           N  " ++
  "\n" ++
  "ATOM         CA  ALA B   1       2.000   2.000   3.000  1.00  0.00           C  " ++
  "\n" ++
  "ATOM         C   ALA B   2       3.000   2.000   3.000  1.00  0.00           C  "

/-- A data line whose numeric fields are all unparsable. -/
def c5Text : String := "ATOM garbage"

/-- A text with no ATOM/HETATM records before the END record. -/
def c6Text : String := "TITLE stuff\nEND\nATOM         C   LIG A   1"

/-- A single atom at (10, 0, 0): its axis-aligned spans are all zero, but
the zero-anchored extrema of `calcMaxLength` give 10. -/
def c9Text : String :=
  "ATOM         C   LIG A   1      10.000   0.000   0.000  1.00  0.00           C  "

/-- One residue of three atoms on the x-axis at 0, 100, −100.  The centroid
is the origin, so atom 0 is strictly closest to it, but `getIAtomClosest`
never measures the first atom's distance. -/
def c8Soup : Soup :=
  { Soup.empty with
    atomStore := [
      { x := 0, y := 0, z := 0, iAtomType := 0 },
      { x := 100, y := 0, z := 0, iAtomType := 1 },
      { x := -100, y := 0, z := 0, iAtomType := 2 }]
    residueStore := [{ atomOffset := 0, atomCount := 3, iResType := 0 }]
    atomTypeTable := ["Q1", "Q2", "Q3"]
    resTypeTable := ["LIG"] }

/-- One residue of two carbon atoms 1Å apart whose stored
alternate-location codes are `A` (65) and `B` (66): the spec's alt-loc
clause rejects the pair, the program bonds it. -/
def c2Soup : Soup :=
  { Soup.empty with
    atomStore := [
      { x := 0, y := 0, z := 0, iAtomType := 0, iElem := 0, alt := 65 },
      { x := 1, y := 0, z := 0, iAtomType := 1, iElem := 0, alt := 66 }]
    residueStore := [{ atomOffset := 0, atomCount := 2, iResType := 0 }]
    atomTypeTable := ["C1X", "C2X"]
    elemTable := ["C"]
    resTypeTable := ["LIG"] }

/-- One residue of two carbon atoms 1Å apart (used to instantiate the bond
theorems). -/
def c3Soup : Soup :=
  { Soup.empty with
    atomStore := [
      { x := 0, y := 0, z := 0, iAtomType := 0, iElem := 0 },
      { x := 1, y := 0, z := 0, iAtomType := 1, iElem := 0 }]
    residueStore := [{ atomOffset := 0, atomCount := 2, iResType := 0 }]
    atomTypeTable := ["C1X", "C2X"]
    elemTable := ["C"]
    resTypeTable := ["LIG"] }

/-- Same shape as `c3Soup`, instantiating the strategic-bond multiplicity
claim. -/
def c10Soup : Soup :=
  { Soup.empty with
    atomStore := [
      { x := 0, y := 0, z := 0, iAtomType := 0, iElem := 0 },
      { x := 1, y := 0, z := 0, iAtomType := 1, iElem := 0 }]
    residueStore := [{ atomOffset := 0, atomCount := 2, iResType := 0 }]
    atomTypeTable := ["C1X", "C2X"]
    elemTable := ["C"]
    resTypeTable := ["LIG"] }

/-- An atom row of a backbone oxygen at `(x, 0, 0)`. -/
def mkO (x : ℚ) : AtomRow := { x := x, y := 0, z := 0, iAtomType := 0, iElem := 0 }

/-- An atom row of a backbone nitrogen at `(x, 0, 0)`. -/
def mkN (x : ℚ) : AtomRow := { x := x, y := 0, z := 0, iAtomType := 1, iElem := 1 }

/-- A polymer residue over atoms `2r` and `2r+1` with coil tag. -/
def mkRes (r : ℕ) : ResidueRow :=
  { atomOffset := 2 * r, atomCount := 2, iCentralAtom := 2 * r,
    iResType := 0, sstruc := charToInt "C", isPolymer := 1 }

/-- `iRes` fields of the atoms of the secondary-structure fixtures: atom
`2r` / `2r+1` belongs to residue `r`. -/
def withIRes (atoms : List AtomRow) : List AtomRow :=
  atoms.mapIdx (fun i a => { a with iRes := i / 2 })

/-- Eight polymer residues whose O/N geometry produces the directed
hydrogen bonds O(0)→N(4), O(1)→N(5), O(1)→N(7), O(7)→N(1): an α-helix
pattern at i = 0 plus an antiparallel beta pair (1, 7) that retags residue
1 as `E` after the helix pass has tagged it `H`. -/
def c4Soup : Soup :=
  { Soup.empty with
    atomStore := withIRes [
      mkO 0, mkN 1000,
      mkO 100, mkN 201,
      mkO 2000, mkN 1100,
      mkO 2100, mkN 1200,
      mkO 2200, mkN 1,
      mkO 2300, mkN 101,
      mkO 2400, mkN 1300,
      mkO 200, mkN 99]
    residueStore :=
      [mkRes 0, mkRes 1, mkRes 2, mkRes 3, mkRes 4, mkRes 5, mkRes 6,
        mkRes 7]
    atomTypeTable := ["O", "N"]
    elemTable := ["O", "N"]
    resTypeTable := ["ALA"] }

/-- Six polymer residues whose O/N geometry produces exactly the α-helix
hydrogen bonds O(0)→N(4) and O(1)→N(5) and no beta-sheet evidence. -/
def c4wSoup : Soup :=
  { Soup.empty with
    atomStore := withIRes [
      mkO 0, mkN 1000,
      mkO 100, mkN 1100,
      mkO 2000, mkN 1200,
      mkO 2100, mkN 1300,
      mkO 2200, mkN 1,
      mkO 2300, mkN 101]
    residueStore := [mkRes 0, mkRes 1, mkRes 2, mkRes 3, mkRes 4, mkRes 5]
    atomTypeTable := ["O", "N"]
    elemTable := ["O", "N"]
    resTypeTable := ["ALA"] }

/-- Two residues pre-tagged `E` with opposing accumulated normal
candidates; the consistency pass must flip the second one. -/
def c7Soup : Soup :=
  { Soup.empty with
    atomStore := [{}]
    residueStore := [
      { atomOffset := 0, atomCount := 1, sstruc := charToInt "E" },
      { atomOffset := 0, atomCount := 1, sstruc := charToInt "E" }]
    residueNormals := fun k =>
      if k = 0 then [⟨1, 0, 0⟩] else if k = 1 then [⟨-1, 0, 0⟩] else [] }

/-- The parts of a soup state that the main secondary-structure loop never
changes: the residue count, the atom table, the parsing error and the
partner map. -/
def FrameEq (t u : Soup) : Prop :=
  t.residueStore.length = u.residueStore.length ∧
  t.atomStore = u.atomStore ∧
  t.parsingError = u.parsingError ∧
  t.residueConhPartners = u.residueConhPartners

/-! ### Generic fold invariance -/

theorem foldl_inv {σ α : Type} (P : σ → Prop) (f : σ → α → σ) :
    ∀ (l : List α) (s : σ), (∀ t a, a ∈ l → P t → P (f t a)) → P s →
      P (l.foldl f s)
  | [], _, _, hs => hs
  | a :: l, s, hf, hs =>
      foldl_inv P f l (f s a)
        (fun t b hb ht => hf t b (List.mem_cons_of_mem a hb) ht)
        (hf s a (List.mem_cons_self a l) hs)

/-! ### Field preservation of the engine passes -/

theorem setRes_resLen (s : Soup) (i : ℕ) (f : ResidueRow → ResidueRow) :
    (setRes s i f).residueStore.length = s.residueStore.length := by
  simp [setRes]

theorem assignScan_length (l : List (ℕ × ℕ)) :
    ∀ (atoms : List AtomRow) (i : ℕ) (c : Option ℕ),
      (assignScan atoms l i c).length = atoms.length := by
  induction l with
  | nil => intro atoms i c; rfl
  | cons b l ih =>
      intro atoms i c
      simp only [assignScan, ih]
      split <;> simp [List.length_set]

theorem hbondStep_core (s : Soup) (idxs : List ℕ) (p : ℕ × ℕ) :
    (s.hbondStep idxs p).residueStore = s.residueStore ∧
    (s.hbondStep idxs p).atomStore = s.atomStore ∧
    (s.hbondStep idxs p).parsingError = s.parsingError := by
  simp only [Soup.hbondStep]
  split_ifs <;> exact ⟨rfl, rfl, rfl⟩

theorem hbonds_core (s : Soup) :
    (s.findBackboneHbonds).residueStore = s.residueStore ∧
    (s.findBackboneHbonds).atomStore = s.atomStore ∧
    (s.findBackboneHbonds).parsingError = s.parsingError := by
  unfold Soup.findBackboneHbonds
  exact foldl_inv (fun t => t.residueStore = s.residueStore ∧
      t.atomStore = s.atomStore ∧ t.parsingError = s.parsingError) _ _ s
    (fun t p _ ht =>
      ⟨(hbondStep_core t _ p).1.trans ht.1,
       (hbondStep_core t _ p).2.1.trans ht.2.1,
       (hbondStep_core t _ p).2.2.trans ht.2.2⟩)
    ⟨rfl, rfl, rfl⟩

theorem frameEq_refl (t : Soup) : FrameEq t t := ⟨rfl, rfl, rfl, rfl⟩

theorem frameEq_trans {t u v : Soup} (h1 : FrameEq t u) (h2 : FrameEq u v) :
    FrameEq t v :=
  ⟨h1.1.trans h2.1, h1.2.1.trans h2.2.1, h1.2.2.1.trans h2.2.2.1,
   h1.2.2.2.trans h2.2.2.2⟩

theorem setRes_frame (s : Soup) (i : ℕ) (f : ResidueRow → ResidueRow) :
    FrameEq (setRes s i f) s :=
  ⟨by simp [setRes], rfl, rfl, rfl⟩

theorem setSs_frame (s : Soup) (i : ℕ) (c : String) :
    FrameEq (setSs s i c) s :=
  setRes_frame s i _

theorem pushNormal_frame (s : Soup) (i : ℕ) (v : V3) :
    FrameEq (pushNormal s i v) s := ⟨rfl, rfl, rfl, rfl⟩

theorem foldl_setSs_frame (s0 : Soup) (l : List ℕ) :
    FrameEq (l.foldl (fun t r => setSs t r "E") s0) s0 :=
  foldl_inv (fun t => FrameEq t s0) _ l s0
    (fun t b _ ht => frameEq_trans (setSs_frame t b "E") ht) (frameEq_refl s0)

theorem foldl_helix_frame (s0 : Soup) (l : List ℕ) (c : String) (n1 n2 : V3) :
    FrameEq (l.foldl (fun t r =>
      pushNormal (pushNormal (setSs t r c) r n1) r n2) s0) s0 :=
  foldl_inv (fun t => FrameEq t s0) _ l s0
    (fun t b _ ht =>
      frameEq_trans (pushNormal_frame _ _ _)
        (frameEq_trans (pushNormal_frame _ _ _)
          (frameEq_trans (setSs_frame t b c) ht)))
    (frameEq_refl s0)

theorem frameEq_ite {c : Prop} [Decidable c] {t u v : Soup}
    (h1 : FrameEq t v) (h2 : FrameEq u v) :
    FrameEq (if c then t else u) v := by
  split_ifs <;> assumption

theorem betaStep_frame (s : Soup) (i1 i2 : ℕ) :
    FrameEq (s.betaStep i1 i2) s := by
  unfold Soup.betaStep
  refine frameEq_ite (frameEq_refl s) ?_
  refine frameEq_trans (foldl_setSs_frame _ _) ?_
  refine frameEq_ite
    (frameEq_trans (pushNormal_frame _ _ _)
      (frameEq_trans (pushNormal_frame _ _ _) ?_)) ?_ <;>
  exact frameEq_ite
    (frameEq_trans (pushNormal_frame _ _ _)
      (frameEq_trans (pushNormal_frame _ _ _) (frameEq_refl s)))
    (frameEq_refl s)

theorem foldl_betaStep_frame (s0 : Soup) (i : ℕ) (l : List ℕ) :
    FrameEq (l.foldl (fun t r => t.betaStep i r) s0) s0 :=
  foldl_inv (fun t => FrameEq t s0) _ l s0
    (fun t b _ ht => frameEq_trans (betaStep_frame t i b) ht)
    (frameEq_refl s0)

theorem ssMainIter_frame (s : Soup) (i : ℕ) :
    FrameEq (s.ssMainIter i) s := by
  unfold Soup.ssMainIter
  refine frameEq_trans (foldl_betaStep_frame _ _ _) ?_
  refine frameEq_ite
    (frameEq_trans (foldl_helix_frame _ _ _ _ _) ?_) ?_ <;>
  refine frameEq_ite
    (frameEq_trans (foldl_helix_frame _ _ _ _ _) ?_) ?_ <;>
  exact frameEq_ite (pushNormal_frame _ _ _) (frameEq_refl s)

theorem ssMainLoop_frame (s : Soup) : FrameEq (s.ssMainLoop) s := by
  unfold Soup.ssMainLoop
  exact foldl_inv (fun t => FrameEq t s) _ _ s
    (fun t b _ ht => frameEq_trans (ssMainIter_frame t b) ht)
    (frameEq_refl s)

theorem averageNormals_core (s : Soup) :
    (s.averageNormals).residueStore = s.residueStore ∧
    (s.averageNormals).atomStore = s.atomStore ∧
    (s.averageNormals).parsingError = s.parsingError := by
  unfold Soup.averageNormals
  refine foldl_inv (fun t => t.residueStore = s.residueStore ∧
      t.atomStore = s.atomStore ∧ t.parsingError = s.parsingError) _ _ s
    (fun t b _ ht => ?_) ⟨rfl, rfl, rfl⟩
  dsimp only
  split_ifs <;> exact ht

theorem flipStep_core (s : Soup) (i : ℕ) :
    (s.flipStep i).residueStore = s.residueStore ∧
    (s.flipStep i).atomStore = s.atomStore ∧
    (s.flipStep i).parsingError = s.parsingError := by
  unfold Soup.flipStep
  split_ifs <;> exact ⟨rfl, rfl, rfl⟩

theorem flipPass_core (s : Soup) :
    (s.flipPass).residueStore = s.residueStore ∧
    (s.flipPass).atomStore = s.atomStore ∧
    (s.flipPass).parsingError = s.parsingError := by
  unfold Soup.flipPass
  exact foldl_inv (fun t => t.residueStore = s.residueStore ∧
      t.atomStore = s.atomStore ∧ t.parsingError = s.parsingError) _ _ s
    (fun t b _ ht =>
      ⟨(flipStep_core t b).1.trans ht.1, (flipStep_core t b).2.1.trans ht.2.1,
       (flipStep_core t b).2.2.trans ht.2.2⟩) ⟨rfl, rfl, rfl⟩

theorem findSS_resLen (s : Soup) :
    (s.findSecondaryStructure).residueStore.length =
      s.residueStore.length := by
  unfold Soup.findSecondaryStructure
  rw [congrArg List.length (flipPass_core _).1,
    congrArg List.length (averageNormals_core _).1]
  rw [(ssMainLoop_frame _).1, congrArg List.length (hbonds_core _).1]

theorem findSS_atomStore (s : Soup) :
    (s.findSecondaryStructure).atomStore = s.atomStore := by
  unfold Soup.findSecondaryStructure
  rw [(flipPass_core _).2.1, (averageNormals_core _).2.1,
    (ssMainLoop_frame _).2.1, (hbonds_core _).2.1]

theorem findSS_parsingError (s : Soup) :
    (s.findSecondaryStructure).parsingError = s.parsingError := by
  unfold Soup.findSecondaryStructure
  rw [(flipPass_core _).2.2, (averageNormals_core _).2.2,
    (ssMainLoop_frame _).2.2.1, (hbonds_core _).2.2]

theorem assignSs_residueLen (s : Soup) :
    (s.assignResidueSsAndCentralAtoms).residueStore.length =
      s.residueStore.length := by
  unfold Soup.assignResidueSsAndCentralAtoms
  refine foldl_inv (fun t => t.residueStore.length = s.residueStore.length)
    _ _ s (fun t b _ ht => ?_) rfl
  dsimp only
  split_ifs <;> rw [setRes_resLen] <;> exact ht

theorem assignSs_atomStore (s : Soup) :
    (s.assignResidueSsAndCentralAtoms).atomStore = s.atomStore := by
  unfold Soup.assignResidueSsAndCentralAtoms
  refine foldl_inv (fun t => t.atomStore = s.atomStore)
    _ _ s (fun t b _ ht => ?_) rfl
  dsimp only
  split_ifs <;> exact ht

theorem assignSs_parsingError (s : Soup) :
    (s.assignResidueSsAndCentralAtoms).parsingError = s.parsingError := by
  unfold Soup.assignResidueSsAndCentralAtoms
  refine foldl_inv (fun t => t.parsingError = s.parsingError)
    _ _ s (fun t b _ ht => ?_) rfl
  dsimp only
  split_ifs <;> exact ht

theorem calcBonds_atomStore (s : Soup) :
    (s.calcBondsStrategic).atomStore = s.atomStore := rfl

theorem calcBonds_residueStore (s : Soup) :
    (s.calcBondsStrategic).residueStore = s.residueStore := rfl

theorem calcBonds_parsingError (s : Soup) :
    (s.calcBondsStrategic).parsingError = s.parsingError := rfl

theorem assignBonds_residueStore (s : Soup) :
    (s.assignBondsToAtoms).residueStore = s.residueStore := rfl

theorem assignBonds_parsingError (s : Soup) :
    (s.assignBondsToAtoms).parsingError = s.parsingError := rfl

theorem assignBonds_atomLen (s : Soup) :
    (s.assignBondsToAtoms).atomStore.length = s.atomStore.length := by
  unfold Soup.assignBondsToAtoms
  rw [assignScan_length]
  simp

theorem calcMax_atomStore (s : Soup) :
    (s.calcMaxLength).atomStore = s.atomStore := rfl

theorem calcMax_residueStore (s : Soup) :
    (s.calcMaxLength).residueStore = s.residueStore := rfl

theorem calcMax_parsingError (s : Soup) :
    (s.calcMaxLength).parsingError = s.parsingError := rfl

/-- Atom count, residue count and parsing error of a full load, in terms of
the state after parsing. -/
theorem load_counts (s : Soup) (pdbId pdbText : String) :
    (s.load pdbId pdbText).getAtomCount =
      (s.makeAtomsFromPdbLines pdbText pdbId).getAtomCount ∧
    (s.load pdbId pdbText).getResidueCount =
      (s.makeAtomsFromPdbLines pdbText pdbId).getResidueCount ∧
    (s.load pdbId pdbText).parsingError =
      (s.makeAtomsFromPdbLines pdbText pdbId).parsingError := by
  simp only [Soup.load, Soup.getAtomCount, Soup.getResidueCount]
  refine ⟨?_, ?_, ?_⟩
  · rw [findSS_atomStore, calcMax_atomStore, assignBonds_atomLen,
      congrArg List.length (calcBonds_atomStore _),
      congrArg List.length (assignSs_atomStore _)]
  · rw [findSS_resLen, congrArg List.length (calcMax_residueStore _),
      congrArg List.length (assignBonds_residueStore _),
      congrArg List.length (calcBonds_residueStore _), assignSs_residueLen]
  · rw [findSS_parsingError, calcMax_parsingError, assignBonds_parsingError,
      calcBonds_parsingError, assignSs_parsingError]

/-! ### Fold lemmas for the extrema loops -/

theorem foldr_max_shift (l : List ℚ) (a c : ℚ) :
    l.foldr max (max a c) = max c (l.foldr max a) := by
  induction l with
  | nil => exact max_comm a c
  | cons d l ih =>
      simp only [List.foldr_cons, ih]
      exact max_left_comm d c (l.foldr max a)

theorem foldr_min_shift (l : List ℚ) (a c : ℚ) :
    l.foldr min (min a c) = min c (l.foldr min a) := by
  induction l with
  | nil => exact min_comm a c
  | cons d l ih =>
      simp only [List.foldr_cons, ih]
      exact min_left_comm d c (l.foldr min a)

/-- The maximum-accumulator loop is the fold of `max` over the mapped
coordinates. -/
theorem foldl_ifmax (f : ℕ → ℚ) (l : List ℕ) (a : ℚ) :
    l.foldl (fun m i => if m < f i then f i else m) a =
      (l.map f).foldr max a := by
  induction l generalizing a with
  | nil => rfl
  | cons i l ih =>
      simp only [List.foldl_cons, List.map_cons, List.foldr_cons, ih]
      have h1 : (if a < f i then f i else a) = max a (f i) := by
        rcases lt_or_ge a (f i) with h | h
        · simp [h, max_eq_right h.le]
        · simp [not_lt.mpr h, max_eq_left h]
      rw [h1, ← foldr_max_shift]

theorem foldl_ifmin (f : ℕ → ℚ) (l : List ℕ) (a : ℚ) :
    l.foldl (fun m i => if m > f i then f i else m) a =
      (l.map f).foldr min a := by
  induction l generalizing a with
  | nil => rfl
  | cons i l ih =>
      simp only [List.foldl_cons, List.map_cons, List.foldr_cons, ih]
      have h1 : (if a > f i then f i else a) = min a (f i) := by
        rcases lt_or_ge (f i) a with h | h
        · simp [h, min_eq_right h.le]
        · simp [not_lt.mpr h, min_eq_left h]
      rw [h1, ← foldr_min_shift]

/-! ### Claim C2: the bond test

The distance part of the bond test is settled structurally: `isBonded`
agrees with the spec's cutoff selection and `≤`-comparison whenever the
alt-loc clause does not apply.  The alt-loc clause itself is dead in the
staged program — see `C2_altloc_rejection_dead` among the concrete
instances. -/

/-- The executed bond test is exactly the element-classed squared-cutoff
comparison, with no alternate-location condition. -/
theorem isBonded_distance_only (s : Soup) (iAtom1 iAtom2 : ℕ) :
    s.isBonded iAtom1 iAtom2 = true ↔
      v3distSq (s.posOf iAtom1) (s.posOf iAtom2) ≤
        claimBondCutoffSq (s.elemOf iAtom1) (s.elemOf iAtom2) := by
  unfold Soup.isBonded claimBondCutoffSq smallCutoffSq mediumCutoffSq
    largeCutoffSq
  split_ifs <;> simp

/-! ### Claim C9: the bounding span -/

/-- **C9 (amended).** After `calcMaxLength`, the exposed scalar equals the
largest, over the three dimensions, of the span of the atom coordinates
together with the origin (the extrema accumulators start at zero), rather
than the span of the atom coordinates alone. -/
theorem C9_maxlength_amended (s : Soup) :
    (s.calcMaxLength).maxLength = originMaxLength s := by
  have hspan : ∀ iDim, s.dimMaximum iDim - s.dimMinimum iDim =
      originSpan s iDim := by
    intro iDim
    unfold Soup.dimMaximum Soup.dimMinimum originSpan atomCoords
    rw [foldl_ifmax, foldl_ifmin]
  simp only [Soup.calcMaxLength, originMaxLength, hspan]

/-! ### Claim C6: inputs with no atom records -/

/-- **C6.** If the input text has no ATOM/HETATM records before an END
record, the load produces an empty model — zero atoms, zero residues — and
retains a non-empty parsing-error message. -/
theorem C6_no_atom_lines (pdbId pdbText : String)
    (h : collectAtomLines (splitLines pdbText) = []) :
    (Soup.empty.load pdbId pdbText).getAtomCount = 0 ∧
      (Soup.empty.load pdbId pdbText).getResidueCount = 0 ∧
      (Soup.empty.load pdbId pdbText).parsingError ≠ "" := by
  obtain ⟨h1, h2, h3⟩ := load_counts Soup.empty pdbId pdbText
  have hmk : Soup.empty.makeAtomsFromPdbLines pdbText pdbId =
      { Soup.empty with pdbId := pdbId, parsingError := "No atom lines" } := by
    unfold Soup.makeAtomsFromPdbLines
    rw [h]
    rfl
  rw [h1, h2, h3, hmk]
  refine ⟨rfl, rfl, ?_⟩
  show "No atom lines" ≠ ""
  decide

/-! ### Claim C7: the sheet-normal consistency pass -/

theorem ssOf_congr {t u : Soup} (h : t.residueStore = u.residueStore)
    (j : ℕ) : t.ssOf j = u.ssOf j := by
  unfold Soup.ssOf resAt
  rw [h]

theorem flipStep_ssOf (s : Soup) (i j : ℕ) :
    (s.flipStep i).ssOf j = s.ssOf j :=
  ssOf_congr (flipStep_core s i).1 j

theorem flipStep_normal_ne (s : Soup) (i j : ℕ) (h : j ≠ i) :
    (s.flipStep i).residueNormal j = s.residueNormal j := by
  unfold Soup.flipStep
  split_ifs <;> simp [h]

theorem v3dot_neg_left (a b : V3) : v3dot (v3neg a) b = -(v3dot a b) := by
  unfold v3dot v3neg
  ring

theorem flipStep_of_cond_neg (s : Soup) (i : ℕ)
    (h : ¬(s.ssOf (i - 1) = "E" ∧ (s.residueNormal (i - 1)).isSome ∧
      s.ssOf i = "E" ∧ (s.residueNormal i).isSome)) : s.flipStep i = s := by
  unfold Soup.flipStep
  rw [if_neg h]

theorem flipStep_of_dot_neg (s : Soup) (i : ℕ)
    (h : s.ssOf (i - 1) = "E" ∧ (s.residueNormal (i - 1)).isSome ∧
      s.ssOf i = "E" ∧ (s.residueNormal i).isSome)
    (hdot : v3dot ((s.residueNormal i).getD ⟨0, 0, 0⟩)
      ((s.residueNormal (i - 1)).getD ⟨0, 0, 0⟩) < 0) :
    s.flipStep i =
      { s with residueNormal := fun k =>
          if k = i then (s.residueNormal i).map v3neg
          else s.residueNormal k } := by
  unfold Soup.flipStep
  rw [if_pos h, if_pos hdot]

theorem flipStep_of_dot_nonneg (s : Soup) (i : ℕ)
    (h : s.ssOf (i - 1) = "E" ∧ (s.residueNormal (i - 1)).isSome ∧
      s.ssOf i = "E" ∧ (s.residueNormal i).isSome)
    (hdot : ¬v3dot ((s.residueNormal i).getD ⟨0, 0, 0⟩)
      ((s.residueNormal (i - 1)).getD ⟨0, 0, 0⟩) < 0) :
    s.flipStep i = s := by
  unfold Soup.flipStep
  rw [if_pos h, if_neg hdot]

theorem flipStep_pairOk (s : Soup) (i : ℕ) (hi : 0 < i) :
    PairOk (s.flipStep i) i := by
  by_cases hcond : s.ssOf (i - 1) = "E" ∧ (s.residueNormal (i - 1)).isSome ∧
      s.ssOf i = "E" ∧ (s.residueNormal i).isSome
  · obtain ⟨hssA, h1, hssB, h2⟩ := hcond
    obtain ⟨w0, hw0⟩ := Option.isSome_iff_exists.mp h1
    obtain ⟨w1, hw1⟩ := Option.isSome_iff_exists.mp h2
    by_cases hdot : v3dot ((s.residueNormal i).getD ⟨0, 0, 0⟩)
        ((s.residueNormal (i - 1)).getD ⟨0, 0, 0⟩) < 0
    · rw [flipStep_of_dot_neg s i ⟨hssA, h1, hssB, h2⟩ hdot]
      intro hss0 hss1 v0 v1 hv0 hv1
      have hv0x : (if i - 1 = i then (s.residueNormal i).map v3neg
          else s.residueNormal (i - 1)) = some v0 := hv0
      have hv1x : (if i = i then (s.residueNormal i).map v3neg
          else s.residueNormal i) = some v1 := hv1
      rw [if_neg (by omega : ¬(i - 1 = i))] at hv0x
      rw [if_pos rfl, hw1] at hv1x
      rw [hw0, hw1] at hdot
      simp only [Option.getD_some] at hdot
      rw [hw0] at hv0x
      cases hv0x
      simp only [Option.map_some'] at hv1x
      cases hv1x
      rw [v3dot_neg_left]
      linarith
    · rw [flipStep_of_dot_nonneg s i ⟨hssA, h1, hssB, h2⟩ hdot]
      intro hss0 hss1 v0 v1 hv0 hv1
      rw [hw0] at hv0
      rw [hw1] at hv1
      cases hv0
      cases hv1
      rw [hw0, hw1] at hdot
      simp only [Option.getD_some] at hdot
      linarith [not_lt.mp hdot]
  · rw [flipStep_of_cond_neg s i hcond]
    intro hss0 hss1 v0 v1 hv0 hv1
    exact absurd ⟨hss0, by rw [hv0]; rfl, hss1, by rw [hv1]; rfl⟩ hcond

theorem flipStep_preserves_pairOk (s : Soup) (i j : ℕ) (h1 : j ≠ i)
    (h2 : j - 1 ≠ i) (hp : PairOk s j) : PairOk (s.flipStep i) j := by
  intro hss0 hss1 v0 v1 hv0 hv1
  rw [flipStep_ssOf] at hss0 hss1
  rw [flipStep_normal_ne s i (j - 1) h2] at hv0
  rw [flipStep_normal_ne s i j h1] at hv1
  exact hp hss0 hss1 v0 v1 hv0 hv1

theorem flipFold_preserves (l : List ℕ) (s : Soup) (j : ℕ)
    (h : ∀ k ∈ l, j ≠ k ∧ j - 1 ≠ k) (hp : PairOk s j) :
    PairOk (l.foldl Soup.flipStep s) j :=
  foldl_inv (fun t => PairOk t j) _ l s
    (fun t k hk ht => flipStep_preserves_pairOk t k j (h k hk).1 (h k hk).2 ht)
    hp

theorem flipFold_pairOk :
    ∀ (l : List ℕ) (s : Soup), (∀ i ∈ l, 0 < i) →
      List.Pairwise (· < ·) l → ∀ i ∈ l, PairOk (l.foldl Soup.flipStep s) i
  | [], _, _, _, i, hi => absurd hi (List.not_mem_nil i)
  | k :: l, s, hpos, hsort, i, hi => by
      rw [List.foldl_cons]
      rcases List.mem_cons.mp hi with rfl | hmem
      · exact flipFold_preserves l (s.flipStep i) i
          (fun m hm => by
            have := (List.pairwise_cons.mp hsort).1 m hm
            omega)
          (flipStep_pairOk s i (hpos i hi))
      · exact flipFold_pairOk l (s.flipStep k)
          (fun m hm => hpos m (List.mem_cons_of_mem k hm))
          (List.pairwise_cons.mp hsort).2 i hmem

theorem flipPass_pairOk (pre : Soup) (i : ℕ) (h0 : 0 < i)
    (hn : i < pre.getResidueCount)
    (hss0 : (pre.flipPass).ssOf (i - 1) = "E")
    (hss1 : (pre.flipPass).ssOf i = "E")
    (v0 v1 : V3)
    (hv0 : (pre.flipPass).residueNormal (i - 1) = some v0)
    (hv1 : (pre.flipPass).residueNormal i = some v1) :
    0 ≤ v3dot v1 v0 := by
  have hmem : i ∈ List.range' 1 (pre.getResidueCount - 1) := by
    rw [List.mem_range'_1]
    omega
  have := flipFold_pairOk (List.range' 1 (pre.getResidueCount - 1)) pre
    (fun m hm => by
      rw [List.mem_range'_1] at hm
      omega)
    (List.pairwise_lt_range' 1 (pre.getResidueCount - 1)) i hmem
  exact this hss0 hss1 v0 v1 hv0 hv1

theorem flipPass_resCount (t : Soup) :
    (t.flipPass).getResidueCount = t.getResidueCount :=
  congrArg List.length (flipPass_core t).1

/-- **C7.** After the sheet-normal consistency pass at the end of
`findSecondaryStructure`, every adjacent pair of `E`-tagged residues that
both have defined normals has nonnegative dot product. -/
theorem C7_sheet_normal_consistency (s : Soup) (i : ℕ) (h0 : 0 < i)
    (hn : i < (s.findSecondaryStructure).getResidueCount)
    (hss0 : (s.findSecondaryStructure).ssOf (i - 1) = "E")
    (hss1 : (s.findSecondaryStructure).ssOf i = "E")
    (v0 v1 : V3)
    (hv0 : (s.findSecondaryStructure).residueNormal (i - 1) = some v0)
    (hv1 : (s.findSecondaryStructure).residueNormal i = some v1) :
    0 ≤ v3dot v1 v0 := by
  have hfse : s.findSecondaryStructure =
      (((s.findBackboneHbonds).ssMainLoop).averageNormals).flipPass := rfl
  rw [hfse] at hn hss0 hss1 hv0 hv1
  rw [flipPass_resCount] at hn
  exact flipPass_pairOk (((s.findBackboneHbonds).ssMainLoop).averageNormals)
    i h0 hn hss0 hss1 v0 v1 hv0 hv1

/-! ### Claim C1: atom and residue counts of a parse -/

theorem getD_append_self {α : Type} (l : List α) (r d : α) :
    (l ++ [r]).getD l.length d = r := by
  induction l with
  | nil => rfl
  | cons a l ih => simp [ih]

theorem getD_set_self {α : Type} (l : List α) (i : ℕ) (a d : α)
    (h : i < l.length) : (l.set i a).getD i d = a := by
  induction l generalizing i with
  | nil => simp at h
  | cons b l ih =>
      cases i with
      | zero => rfl
      | succ n => simpa using ih n (by simpa using h)

theorem getD_set_ne {α : Type} (l : List α) (i j : ℕ) (a d : α)
    (h : j ≠ i) : (l.set i a).getD j d = l.getD j d := by
  induction l generalizing i j with
  | nil => simp
  | cons b l ih =>
      cases i with
      | zero =>
          cases j with
          | zero => exact absurd rfl h
          | succ m => rfl
      | succ n =>
          cases j with
          | zero => rfl
          | succ m => simpa using ih n m (by omega)

theorem appendAtomRow_residueStore (s : Soup) (x y z bf : Option ℚ)
    (alt atomType elem : String) :
    (s.appendAtomRow x y z bf alt atomType elem).residueStore =
      s.residueStore := rfl

theorem appendAtomRow_atomLen (s : Soup) (x y z bf : Option ℚ)
    (alt atomType elem : String) :
    (s.appendAtomRow x y z bf alt atomType elem).atomStore.length =
      s.atomStore.length + 1 := by
  simp [Soup.appendAtomRow]

theorem isNewRes_append (s : Soup) (x y z bf : Option ℚ)
    (alt atomType elem : String) (rn : Option ℤ) (ins : String) :
    (s.appendAtomRow x y z bf alt atomType elem).isNewRes rn ins =
      s.isNewRes rn ins := rfl

theorem isNewRes_char (s : Soup) (v : ℤ) (ins : String)
    (h0 : 0 < s.getResidueCount) :
    (s.isNewRes (some v) ins = true) ↔ lastResKey s ≠ (v, ins) := by
  unfold Soup.isNewRes lastResKey
  rw [if_neg (by omega)]
  simp only [jsNeqNum, Bool.or_eq_true, decide_eq_true_eq, Prod.ext_iff,
    ne_eq]
  tauto

theorem addResidue_resLen (s : Soup) (i : ℕ) (rn : Option ℤ)
    (ins ch rt : String) :
    (s.addResidue i rn ins ch rt).residueStore.length =
      s.residueStore.length + 1 := by
  simp [Soup.addResidue]

theorem addResidue_atomStore (s : Soup) (i : ℕ) (rn : Option ℤ)
    (ins ch rt : String) :
    (s.addResidue i rn ins ch rt).atomStore = s.atomStore := rfl

theorem addResidue_lastKey (s : Soup) (i : ℕ) (v : ℤ) (ins ch rt : String)
    (hins : intToChar (charToInt ins) = ins) :
    lastResKey (s.addResidue i (some v) ins ch rt) = (v, ins) := by
  unfold lastResKey Soup.addResidue Soup.getResidueCount resAt
  simp only [List.length_append, List.length_cons, List.length_nil]
  have hidx : s.residueStore.length + 1 - 1 = s.residueStore.length := by
    omega
  rw [hidx, getD_append_self]
  simp [jsIntToStore, hins]

theorem resAt_setRes (s : Soup) (i j : ℕ) (f : ResidueRow → ResidueRow)
    (h : j ≠ i) : resAt (setRes s i f) j = resAt s j := by
  unfold resAt setRes
  exact getD_set_ne _ _ _ _ _ h

theorem resAt_setRes_self (s : Soup) (i : ℕ) (f : ResidueRow → ResidueRow)
    (h : i < s.residueStore.length) :
    resAt (setRes s i f) i = f (resAt s i) := by
  unfold resAt setRes
  exact getD_set_self _ _ _ _ h

theorem lastResKey_setRes_inc (s : Soup) (i : ℕ) :
    lastResKey (setRes s i (fun r => { r with atomCount := r.atomCount + 1 }))
      = lastResKey s := by
  unfold lastResKey
  rw [show (setRes s i fun r => { r with atomCount := r.atomCount + 1
      }).getResidueCount = s.getResidueCount from setRes_resLen s i _]
  by_cases h : s.getResidueCount - 1 = i
  · subst h
    by_cases hlt : s.getResidueCount - 1 < s.residueStore.length
    · rw [resAt_setRes_self s _ _ hlt]
    · have hle : s.residueStore.length ≤ s.getResidueCount - 1 := by
        unfold Soup.getResidueCount at hlt ⊢
        omega
      unfold resAt setRes
      rw [List.set_eq_of_length_le hle]
  · rw [resAt_setRes s i _ _ h]

theorem lastResKey_setAtom (s : Soup) (i : ℕ) (f : AtomRow → AtomRow) :
    lastResKey (setAtom s i f) = lastResKey s := rfl

theorem setAtom_atomLen (s : Soup) (i : ℕ) (f : AtomRow → AtomRow) :
    (setAtom s i f).atomStore.length = s.atomStore.length := by
  simp [setAtom]

theorem setRes_atomLen (s : Soup) (i : ℕ) (f : ResidueRow → ResidueRow) :
    (setRes s i f).atomStore.length = s.atomStore.length := rfl

theorem setAtom_resCount (s : Soup) (i : ℕ) (f : AtomRow → AtomRow) :
    (setAtom s i f).getResidueCount = s.getResidueCount := rfl

theorem setRes_resCount (s : Soup) (i : ℕ) (f : ResidueRow → ResidueRow) :
    (setRes s i f).getResidueCount = s.getResidueCount :=
  setRes_resLen s i f

theorem addResidue_resCount (s : Soup) (i : ℕ) (rn : Option ℤ)
    (ins ch rt : String) :
    (s.addResidue i rn ins ch rt).getResidueCount = s.getResidueCount + 1 :=
  addResidue_resLen s i rn ins ch rt

theorem addResidue_atomLen (s : Soup) (i : ℕ) (rn : Option ℤ)
    (ins ch rt : String) :
    (s.addResidue i rn ins ch rt).atomStore.length = s.atomStore.length := rfl

theorem appendAtomRow_resCount (s : Soup) (x y z bf : Option ℚ)
    (alt atomType elem : String) :
    (s.appendAtomRow x y z bf alt atomType elem).getResidueCount =
      s.getResidueCount :=
  congrArg List.length (appendAtomRow_residueStore s x y z bf alt atomType
    elem)

theorem addAtom_effects (s : Soup) (x y z bf : Option ℚ)
    (alt atomType elem resType : String) (v : ℤ) (insCode chain : String)
    (h0 : 0 < s.getResidueCount)
    (hins : intToChar (charToInt insCode) = insCode) :
    (s.addAtom x y z bf alt atomType elem resType (some v) insCode
        chain).atomStore.length = s.atomStore.length + 1 ∧
    (s.addAtom x y z bf alt atomType elem resType (some v) insCode
        chain).getResidueCount =
      s.getResidueCount + (if lastResKey s = (v, insCode) then 0 else 1) ∧
    lastResKey (s.addAtom x y z bf alt atomType elem resType (some v) insCode
        chain) = (v, insCode) := by
  have hlastApp : lastResKey (s.appendAtomRow x y z bf alt atomType elem) =
      lastResKey s := by
    unfold lastResKey Soup.getResidueCount resAt
    rw [appendAtomRow_residueStore]
  have hlenApp : (s.appendAtomRow x y z bf alt atomType
      elem).residueStore.length = s.residueStore.length :=
    congrArg List.length
      (appendAtomRow_residueStore s x y z bf alt atomType elem)
  simp only [Soup.addAtom]
  rw [isNewRes_append]
  by_cases hkey : lastResKey s = (v, insCode)
  · have hnew : ¬(s.isNewRes (some v) insCode = true) := by
      rw [isNewRes_char s v insCode h0]
      simpa using hkey
    rw [if_neg hnew, if_pos hkey]
    refine ⟨?_, ?_, ?_⟩
    · rw [setAtom_atomLen, setRes_atomLen, appendAtomRow_atomLen]
    · rw [setAtom_resCount, setRes_resCount, appendAtomRow_resCount]
      omega
    · rw [lastResKey_setAtom, lastResKey_setRes_inc, hlastApp, hkey]
  · have hnew : s.isNewRes (some v) insCode = true := by
      rw [isNewRes_char s v insCode h0]
      simpa using hkey
    rw [if_pos hnew, if_neg hkey]
    have hlastAdd : lastResKey ((s.appendAtomRow x y z bf alt atomType
        elem).addResidue s.atomStore.length (some v) insCode chain resType) =
        (v, insCode) :=
      addResidue_lastKey _ _ v insCode chain resType hins
    refine ⟨?_, ?_, ?_⟩
    · rw [setAtom_atomLen, setRes_atomLen, addResidue_atomLen,
        appendAtomRow_atomLen]
    · rw [setAtom_resCount, setRes_resCount, addResidue_resCount,
        appendAtomRow_resCount]
    · rw [lastResKey_setAtom, lastResKey_setRes_inc, hlastAdd]

theorem addAtom_effects_first (s : Soup) (x y z bf : Option ℚ)
    (alt atomType elem resType : String) (v : ℤ) (insCode chain : String)
    (h0 : s.getResidueCount = 0)
    (hins : intToChar (charToInt insCode) = insCode) :
    (s.addAtom x y z bf alt atomType elem resType (some v) insCode
        chain).atomStore.length = s.atomStore.length + 1 ∧
    (s.addAtom x y z bf alt atomType elem resType (some v) insCode
        chain).getResidueCount = 1 ∧
    lastResKey (s.addAtom x y z bf alt atomType elem resType (some v) insCode
        chain) = (v, insCode) := by
  have hnew : s.isNewRes (some v) insCode = true := by
    unfold Soup.isNewRes
    rw [if_pos h0]
  simp only [Soup.addAtom]
  rw [isNewRes_append, if_pos hnew]
  refine ⟨?_, ?_, ?_⟩
  · rw [setAtom_atomLen, setRes_atomLen, addResidue_atomLen,
      appendAtomRow_atomLen]
  · rw [setAtom_resCount, setRes_resCount, addResidue_resCount,
      appendAtomRow_resCount, h0]
  · rw [lastResKey_setAtom, lastResKey_setRes_inc]
    exact addResidue_lastKey _ _ v insCode chain resType hins

theorem addAtomFields_effects (s : Soup) (f : PdbFields)
    (h0 : 0 < s.getResidueCount)
    (hwf : f.resNum.isSome = true ∧
      intToChar (charToInt f.insCode) = f.insCode) :
    (s.addAtomFields f).atomStore.length = s.atomStore.length + 1 ∧
    (s.addAtomFields f).getResidueCount =
      s.getResidueCount + (if lastResKey s = fieldKey f then 0 else 1) ∧
    lastResKey (s.addAtomFields f) = fieldKey f := by
  obtain ⟨v, hv⟩ := Option.isSome_iff_exists.mp hwf.1
  unfold Soup.addAtomFields fieldKey
  rw [hv]
  simpa using addAtom_effects s f.x f.y f.z f.bfactor f.alt f.atomType
    f.elem f.resType v f.insCode f.chain h0 hwf.2

theorem addAtomFields_effects_first (s : Soup) (f : PdbFields)
    (h0 : s.getResidueCount = 0)
    (hwf : f.resNum.isSome = true ∧
      intToChar (charToInt f.insCode) = f.insCode) :
    (s.addAtomFields f).atomStore.length = s.atomStore.length + 1 ∧
    (s.addAtomFields f).getResidueCount = 1 ∧
    lastResKey (s.addAtomFields f) = fieldKey f := by
  obtain ⟨v, hv⟩ := Option.isSome_iff_exists.mp hwf.1
  unfold Soup.addAtomFields fieldKey
  rw [hv]
  simpa using addAtom_effects_first s f.x f.y f.z f.bfactor f.alt f.atomType
    f.elem f.resType v f.insCode f.chain h0 hwf.2

theorem boundaryCount_cons (k k2 : ℤ × String) (ks : List (ℤ × String)) :
    boundaryCount k (k2 :: ks) =
      (if k = k2 then 0 else 1) + boundaryCount k2 ks := by
  show (if k2 ≠ k then 1 else 0) + boundaryCount k2 ks = _
  by_cases h : k = k2
  · rw [if_neg (by simp [h.symm]), if_pos h]
  · rw [if_pos (by simpa using fun hx => h hx.symm), if_neg h]

theorem addAtomFold (recs : List PdbFields) :
    ∀ (s : Soup), 0 < s.getResidueCount →
    (∀ f ∈ recs, f.resNum.isSome = true ∧
      intToChar (charToInt f.insCode) = f.insCode) →
    (recs.foldl Soup.addAtomFields s).atomStore.length =
      s.atomStore.length + recs.length ∧
    (recs.foldl Soup.addAtomFields s).getResidueCount =
      s.getResidueCount + boundaryCount (lastResKey s) (recs.map fieldKey) := by
  induction recs with
  | nil =>
      intro s h0 _
      simp [boundaryCount]
  | cons f recs ih =>
      intro s h0 hwf
      obtain ⟨hlen, hcnt, hkey⟩ :=
        addAtomFields_effects s f h0 (hwf f (List.mem_cons_self f recs))
      have h0x : 0 < (s.addAtomFields f).getResidueCount := by
        rw [hcnt]
        split <;> omega
      obtain ⟨ihlen, ihcnt⟩ := ih (s.addAtomFields f) h0x
        (fun g hg => hwf g (List.mem_cons_of_mem f hg))
      refine ⟨?_, ?_⟩
      · rw [List.foldl_cons, ihlen, hlen, List.length_cons]
        omega
      · rw [List.foldl_cons, ihcnt, hcnt, hkey, List.map_cons,
          boundaryCount_cons]
        omega

theorem collect_heads : ∀ (L : List String) (line : String),
    line ∈ collectAtomLines L →
    substr line 0 4 = "ATOM" ∨ substr line 0 6 = "HETATM" := by
  intro L
  induction L with
  | nil => intro line h; simp [collectAtomLines] at h
  | cons l rest ih =>
      intro line h
      unfold collectAtomLines at h
      by_cases hk : substr l 0 4 = "ATOM" ∨ substr l 0 6 = "HETATM"
      · rw [if_pos hk] at h
        by_cases he : substr l 0 3 = "END"
        · rw [if_pos he] at h
          rcases List.mem_singleton.mp h with rfl
          exact hk
        · rw [if_neg he] at h
          rcases List.mem_append.mp h with h1 | h2
          · rcases List.mem_singleton.mp h1 with rfl
            exact hk
          · exact ih line h2
      · rw [if_neg hk] at h
        by_cases he : substr l 0 3 = "END"
        · rw [if_pos he] at h
          simp at h
        · rw [if_neg he] at h
          rcases List.mem_append.mp h with h1 | h2
          · simp at h1
          · exact ih line h2

theorem foldl_congr_mem {σ α : Type} (l : List α) (f g : σ → α → σ)
    (h : ∀ a ∈ l, ∀ s, f s a = g s a) : ∀ s, l.foldl f s = l.foldl g s := by
  induction l with
  | nil => intro s; rfl
  | cons a l ih =>
      intro s
      rw [List.foldl_cons, List.foldl_cons, h a (List.mem_cons_self a l) s]
      exact ih (fun b hb => h b (List.mem_cons_of_mem a hb)) _

theorem v3distSq_self (p : V3) : v3distSq p p = 0 := by
  unfold v3distSq
  ring

theorem v3distSq_comm (p q : V3) : v3distSq p q = v3distSq q p := by
  unfold v3distSq
  ring

theorem isBonded_self (s : Soup) (a : ℕ) : s.isBonded a a = true := by
  simp only [Soup.isBonded]
  rw [v3distSq_self]
  simp only [decide_eq_true_eq]
  split_ifs <;> norm_num [smallCutoffSq, mediumCutoffSq, largeCutoffSq]

theorem isBonded_comm (s : Soup) (a b : ℕ) :
    s.isBonded a b = s.isBonded b a := by
  simp only [Soup.isBonded]
  rw [v3distSq_comm]
  by_cases h3 : s.elemOf a = "H" ∨ s.elemOf b = "H"
  · rw [if_pos h3]
    rw [if_pos (Or.symm h3)]
  · rw [if_neg h3]
    rw [if_neg (show ¬(s.elemOf b = "H" ∨ s.elemOf a = "H")
      from fun h4 => h3 (Or.symm h4))]
    by_cases h5 : s.elemOf a ∈ CHONPS ∧ s.elemOf b ∈ CHONPS
    · rw [if_pos h5]
      rw [if_pos (show s.elemOf b ∈ CHONPS ∧ s.elemOf a ∈ CHONPS
        from ⟨h5.2, h5.1⟩)]
    · rw [if_neg h5]
      rw [if_neg (show ¬(s.elemOf b ∈ CHONPS ∧ s.elemOf a ∈ CHONPS)
        from fun h6 => h5 ⟨h6.2, h6.1⟩)]

theorem ite_eq_swap (u w : ℕ × ℕ) :
    (if u = w then (1 : ℕ) else 0) = (if w = u then 1 else 0) := by
  by_cases h : u = w
  · rw [if_pos h, if_pos h.symm]
  · rw [if_neg h, if_neg (fun hh => h hh.symm)]

theorem count_two (p a b : ℕ × ℕ) :
    List.count p [a, b] =
      (if p = a then 1 else 0) + (if p = b then 1 else 0) := by
  rw [List.count_cons, List.count_singleton]
  simp only [beq_iff_eq]
  rw [ite_eq_swap b p, ite_eq_swap a p]
  omega

theorem count_pair_entry (g : ℕ → ℕ → Bool) (i j x y : ℕ) :
    ((if g i j then [(i, j), (j, i)] else []) : List (ℕ × ℕ)).count (x, y) =
      (if g i j then
        ((if i = x ∧ j = y then 1 else 0) +
         (if j = x ∧ i = y then 1 else 0)) else 0) := by
  by_cases hg : g i j = true
  · rw [if_pos hg, if_pos hg, count_two]
    have e1 : ((x, y) = (i, j)) ↔ (i = x ∧ j = y) := by
      simp [Prod.ext_iff, eq_comm]
    have e2 : ((x, y) = (j, i)) ↔ (j = x ∧ i = y) := by
      simp [Prod.ext_iff, eq_comm]
    simp only [e1, e2]
  · rw [if_neg hg, if_neg hg]
    rfl

theorem count_inner (s : Soup) (i x y : ℕ) :
    ∀ m : List ℕ,
      (m.flatMap (fun j =>
        if s.isBonded i j then [(i, j), (j, i)] else [])).count (x, y) =
      (if i = x ∧ s.isBonded x y then m.count y else 0) +
      (if i = y ∧ s.isBonded y x then m.count x else 0)
  | [] => by simp
  | j :: m => by
      rw [List.flatMap_cons, List.count_append, count_inner s i x y m,
        count_pair_entry]
      simp only [List.count_cons, beq_iff_eq]
      by_cases h1 : i = x <;> by_cases h2 : j = y <;> by_cases h3 : i = y <;>
        by_cases h4 : j = x <;> by_cases h5 : s.isBonded i j = true <;>
          simp_all <;> omega

theorem count_block (s : Soup) (x y : ℕ) :
    ∀ l m : List ℕ,
      (l.flatMap (fun i => m.flatMap (fun j =>
        if s.isBonded i j then [(i, j), (j, i)] else []))).count (x, y) =
      (if s.isBonded x y then l.count x * m.count y else 0) +
      (if s.isBonded y x then l.count y * m.count x else 0)
  | [], m => by simp
  | i :: l, m => by
      rw [List.flatMap_cons, List.count_append, count_block s x y l m,
        count_inner]
      simp only [List.count_cons, beq_iff_eq]
      by_cases h1 : i = x <;> by_cases h2 : i = y <;>
        by_cases h3 : s.isBonded x y = true <;>
          by_cases h4 : s.isBonded y x = true <;> simp_all <;> ring

theorem count_bondStore (s : Soup) (x y : ℕ) :
    (s.calcBondsStrategic).bondStore.count (x, y) =
      ((List.range s.getResidueCount).map (fun r =>
        (if s.isBonded x y then
          (resAtomIndices s r).count x * (resAtomIndices s r).count y
         else 0) +
        (if s.isBonded y x then
          (resAtomIndices s r).count y * (resAtomIndices s r).count x
         else 0))).sum := by
  show ((List.range s.getResidueCount).flatMap _).count (x, y) = _
  rw [List.count_flatMap]
  congr 1
  refine List.map_congr_left (fun r _ => ?_)
  exact count_block s x y _ _

theorem map_mul_sum_zero {α : Type} (u v : α → ℕ) :
    ∀ L : List α, (L.map u).sum = 0 → (L.map (fun r => u r * v r)).sum = 0
  | [], _ => rfl
  | a :: L, h => by
      simp only [List.map_cons, List.sum_cons] at h ⊢
      have ha : u a = 0 := by omega
      rw [ha, map_mul_sum_zero u v L (by omega)]
      simp

theorem mem_le_map_sum {α : Type} (u : α → ℕ) (r : α) :
    ∀ L : List α, r ∈ L → u r ≤ (L.map u).sum
  | [], hr => absurd hr (List.not_mem_nil r)
  | a :: L, hr => by
      simp only [List.map_cons, List.sum_cons]
      rcases List.mem_cons.mp hr with h | h
      · subst h
        omega
      · have := mem_le_map_sum u r L h
        omega

theorem map_mul_sum_one {α : Type} (u v : α → ℕ) :
    ∀ L : List α, (L.map u).sum = 1 → (L.map v).sum = 1 →
      (∃ r ∈ L, 1 ≤ u r ∧ 1 ≤ v r) →
      (L.map (fun r => u r * v r)).sum = 1
  | [], hu, _, _ => by simp at hu
  | a :: L, hu, hv, hex => by
      obtain ⟨r, hr, hur, hvr⟩ := hex
      simp only [List.map_cons, List.sum_cons] at hu hv ⊢
      rcases List.mem_cons.mp hr with rfl | h
      · have h1 : u r = 1 := by omega
        have h2 : v r = 1 := by omega
        have h3 : (L.map u).sum = 0 := by omega
        rw [h1, h2, map_mul_sum_zero u v L h3]
      · have h4 := mem_le_map_sum u r L h
        have h5 := mem_le_map_sum v r L h
        have h6 : u a = 0 := by omega
        have h7 : (L.map u).sum = 1 := by omega
        have h8 : (L.map v).sum = 1 := by omega
        rw [h6, map_mul_sum_one u v L h7 h8 ⟨r, h, hur, hvr⟩]
        simp

theorem map_add_sum {α : Type} (u v : α → ℕ) :
    ∀ L : List α, (L.map (fun r => u r + v r)).sum =
      (L.map u).sum + (L.map v).sum
  | [] => rfl
  | a :: L => by
      simp only [List.map_cons, List.sum_cons, map_add_sum u v L]
      omega

/-- **C10.** The strategic bond pass enumerates the full ordered product of
every residue's atom range: when the residue ranges partition the atom
table, every atom `a` yields exactly two self-bond entries `(a, a)`, and a
bonded pair of distinct atoms `a ≠ b` of one residue yields two `(a, b)`
entries and two `(b, a)` entries — four in all. -/
theorem C10_strategic_multiplicity (s : Soup)
    (hpart : ResidueRangesPartition s) (a b r : ℕ)
    (ha : a < s.getAtomCount) (hb : b < s.getAtomCount)
    (hr : r < s.getResidueCount)
    (haR : a ∈ resAtomIndices s r) (hbR : b ∈ resAtomIndices s r)
    (hab : a ≠ b) (hbond : s.isBonded a b = true) :
    (s.calcBondsStrategic).bondStore.count (a, a) = 2 ∧
    (s.calcBondsStrategic).bondStore.count (a, b) = 2 ∧
    (s.calcBondsStrategic).bondStore.count (b, a) = 2 := by
  have hba : s.isBonded b a = true := (isBonded_comm s a b) ▸ hbond
  have hpa : ((List.range s.getResidueCount).map
      (fun i => (resAtomIndices s i).count a)).sum = 1 := by
    have h := hpart a ha
    rw [List.count_flatMap] at h
    simpa [Function.comp] using h
  have hpb : ((List.range s.getResidueCount).map
      (fun i => (resAtomIndices s i).count b)).sum = 1 := by
    have h := hpart b hb
    rw [List.count_flatMap] at h
    simpa [Function.comp] using h
  have hrmem : r ∈ List.range s.getResidueCount := List.mem_range.mpr hr
  have hca : 1 ≤ (resAtomIndices s r).count a := List.count_pos_iff.mpr haR
  have hcb : 1 ≤ (resAtomIndices s r).count b := List.count_pos_iff.mpr hbR
  have h2 : ((List.range s.getResidueCount).map
      (fun i => (resAtomIndices s i).count a *
        (resAtomIndices s i).count a)).sum = 1 :=
    map_mul_sum_one _ _ _ hpa hpa ⟨r, hrmem, hca, hca⟩
  have h3 : ((List.range s.getResidueCount).map
      (fun i => (resAtomIndices s i).count a *
        (resAtomIndices s i).count b)).sum = 1 :=
    map_mul_sum_one _ _ _ hpa hpb ⟨r, hrmem, hca, hcb⟩
  have h4 : ((List.range s.getResidueCount).map
      (fun i => (resAtomIndices s i).count b *
        (resAtomIndices s i).count a)).sum = 1 :=
    map_mul_sum_one _ _ _ hpb hpa ⟨r, hrmem, hcb, hca⟩
  refine ⟨?_, ?_, ?_⟩
  · rw [count_bondStore]
    simp only [isBonded_self s a, if_true]
    rw [map_add_sum]
    omega
  · rw [count_bondStore]
    simp only [hbond, hba, if_true]
    rw [map_add_sum]
    omega
  · rw [count_bondStore]
    simp only [hbond, hba, if_true]
    rw [map_add_sum]
    omega

/-! ### Claim C3: bond symmetry and adjacency runs -/

theorem insertBond_perm (b : ℕ × ℕ) :
    ∀ l : List (ℕ × ℕ), (insertBond b l).Perm (b :: l)
  | [] => List.Perm.refl _
  | c :: l => by
      simp only [insertBond]
      split_ifs with h
      · exact List.Perm.refl _
      · exact ((insertBond_perm b l).cons c).trans (List.Perm.swap b c l)

theorem sortBonds_perm : ∀ l : List (ℕ × ℕ), (sortBonds l).Perm l
  | [] => List.Perm.refl _
  | b :: l => (insertBond_perm b (sortBonds l)).trans
      ((sortBonds_perm l).cons b)

theorem insertBond_pairwise (b : ℕ × ℕ) :
    ∀ l : List (ℕ × ℕ), l.Pairwise (fun p q => p.1 ≤ q.1) →
      (insertBond b l).Pairwise (fun p q => p.1 ≤ q.1)
  | [], _ => by simp [insertBond]
  | c :: l, hp => by
      rw [List.pairwise_cons] at hp
      obtain ⟨hc, hl⟩ := hp
      simp only [insertBond]
      split_ifs with h
      · rw [List.pairwise_cons]
        refine ⟨?_, ?_⟩
        · intro q hq
          rcases List.mem_cons.mp hq with rfl | hq2
          · exact h
          · exact le_trans h (hc q hq2)
        · rw [List.pairwise_cons]
          exact ⟨hc, hl⟩
      · rw [List.pairwise_cons]
        refine ⟨?_, insertBond_pairwise b l hl⟩
        intro q hq
        have hq2 := (insertBond_perm b l).mem_iff.mp hq
        rcases List.mem_cons.mp hq2 with rfl | hq3
        · omega
        · exact hc q hq3

theorem sortBonds_pairwise : ∀ l : List (ℕ × ℕ),
    (sortBonds l).Pairwise (fun p q => p.1 ≤ q.1)
  | [] => List.Pairwise.nil
  | b :: l => insertBond_pairwise b (sortBonds l) (sortBonds_pairwise l)

/-- A list sorted by first component splits around `a` into a strictly
smaller prefix, the run of entries with first component `a`, and a strictly
larger suffix. -/
theorem sorted_decomp (a : ℕ) :
    ∀ S : List (ℕ × ℕ), S.Pairwise (fun p q => p.1 ≤ q.1) →
      ∃ P R T, S = P ++ R ++ T ∧ (∀ b ∈ P, b.1 < a) ∧
        (∀ b ∈ R, b.1 = a) ∧ (∀ b ∈ T, a < b.1)
  | [], _ => ⟨[], [], [], rfl, by simp, by simp, by simp⟩
  | b :: S, hp => by
      rw [List.pairwise_cons] at hp
      obtain ⟨hb, hS⟩ := hp
      obtain ⟨P, R, T, hSeq, hP, hR, hT⟩ := sorted_decomp a S hS
      rcases Nat.lt_trichotomy b.1 a with h | h | h
      · refine ⟨b :: P, R, T, by rw [hSeq]; rfl, ?_, hR, hT⟩
        intro q hq
        rcases List.mem_cons.mp hq with rfl | hq2
        · exact h
        · exact hP q hq2
      · have hPnil : P = [] := by
          cases P with
          | nil => rfl
          | cons p P2 =>
              exfalso
              have hmem : p ∈ S := by
                rw [hSeq]
                exact List.mem_append.mpr
                  (Or.inl (List.mem_append.mpr
                    (Or.inl (List.mem_cons_self p P2))))
              have h1 := hb p hmem
              have h2 := hP p (List.mem_cons_self p P2)
              omega
        subst hPnil
        refine ⟨[], b :: R, T, by rw [hSeq]; rfl, by simp, ?_, hT⟩
        intro q hq
        rcases List.mem_cons.mp hq with rfl | hq2
        · exact h
        · exact hR q hq2
      · refine ⟨[], [], b :: S, by simp, by simp, by simp, ?_⟩
        intro q hq
        rcases List.mem_cons.mp hq with rfl | hq2
        · exact h
        · have h1 := hb q hq2
          omega

theorem curAfter_cases :
    ∀ (L : List (ℕ × ℕ)) (c : Option ℕ),
      curAfter c L = c ∨ ∃ b ∈ L, curAfter c L = some b.1
  | [], _ => Or.inl rfl
  | b :: L, c => by
      rcases curAfter_cases L (some b.1) with h | ⟨q, hq, h⟩
      · exact Or.inr ⟨b, List.mem_cons_self b L, h⟩
      · exact Or.inr ⟨q, List.mem_cons_of_mem b hq, h⟩

theorem assignScan_append :
    ∀ (L1 L2 : List (ℕ × ℕ)) (A : List AtomRow) (i : ℕ) (c : Option ℕ),
      assignScan A (L1 ++ L2) i c =
        assignScan (assignScan A L1 i c) L2 (i + L1.length) (curAfter c L1)
  | [], L2, A, i, c => by
      simp only [List.nil_append, assignScan, curAfter, List.length_nil,
        Nat.add_zero]
  | b :: L1, L2, A, i, c => by
      simp only [List.cons_append, assignScan, curAfter, List.append_eq]
      rw [assignScan_append L1 L2 _ (i + 1) (some b.1)]
      congr 1
      simp only [List.length_cons]
      omega

/-- An index that no bond of the list names keeps its atom row through the
scan. -/
theorem assignScan_getD_ne (a : ℕ) :
    ∀ (L : List (ℕ × ℕ)) (A : List AtomRow) (i : ℕ) (c : Option ℕ),
      (∀ b ∈ L, b.1 ≠ a) →
      (assignScan A L i c).getD a {} = A.getD a {}
  | [], _, _, _, _ => rfl
  | b :: L, A, i, c, hL => by
      have hb : b.1 ≠ a := hL b (List.mem_cons_self b L)
      simp only [assignScan]
      rw [assignScan_getD_ne a L _ (i + 1) (some b.1)
        (fun q hq => hL q (List.mem_cons_of_mem b hq))]
      rw [getD_set_ne _ _ _ _ _ (Ne.symm hb)]
      split_ifs with h
      · rw [getD_set_ne _ _ _ _ _ (Ne.symm hb)]
      · rfl

/-- Continuing inside a run of bonds with first atom `a`: the count grows
by the length of the run, the offset stays. -/
theorem assignScan_run_cont (a : ℕ) :
    ∀ (L : List (ℕ × ℕ)) (A : List AtomRow) (i : ℕ),
      (∀ b ∈ L, b.1 = a) → a < A.length →
      ((assignScan A L i (some a)).getD a {}).bondCount =
          (A.getD a {}).bondCount + L.length ∧
      ((assignScan A L i (some a)).getD a {}).bondOffset =
          (A.getD a {}).bondOffset
  | [], _, _, _, _ => ⟨rfl, rfl⟩
  | b :: L, A, i, hL, hA => by
      have hb : b.1 = a := hL b (List.mem_cons_self b L)
      simp only [assignScan]
      rw [if_neg (show ¬(some a ≠ some b.1) from fun h => h (by rw [hb]))]
      rw [hb]
      obtain ⟨h1, h2⟩ := assignScan_run_cont a L
        (A.set a { A.getD a {} with
          bondCount := (A.getD a {}).bondCount + 1 }) (i + 1)
        (fun q hq => hL q (List.mem_cons_of_mem b hq))
        (by rw [List.length_set]; exact hA)
      rw [h1, h2, getD_set_self _ _ _ _ hA]
      refine ⟨?_, rfl⟩
      simp only [List.length_cons]
      omega

/-- Entering a run of bonds with first atom `a` at scan index `i` from a
different tracker value: the offset is set to `i` and the count to the run
length. -/
theorem assignScan_run (a : ℕ) (L : List (ℕ × ℕ)) (A : List AtomRow)
    (i : ℕ) (c : Option ℕ) (hL : ∀ b ∈ L, b.1 = a) (hne : L ≠ [])
    (hc : c ≠ some a) (hA : a < A.length) :
    ((assignScan A L i c).getD a {}).bondCount =
        (A.getD a {}).bondCount + L.length ∧
    ((assignScan A L i c).getD a {}).bondOffset = i := by
  cases L with
  | nil => exact absurd rfl hne
  | cons b L =>
      have hb : b.1 = a := hL b (List.mem_cons_self b L)
      simp only [assignScan]
      rw [if_pos (show c ≠ some b.1 from by rw [hb]; exact hc)]
      rw [hb]
      obtain ⟨h1, h2⟩ := assignScan_run_cont a L
        ((A.set a { A.getD a {} with bondOffset := i }).set a
          { (A.set a { A.getD a {} with bondOffset := i }).getD a {} with
            bondCount := ((A.set a { A.getD a {} with
              bondOffset := i }).getD a {}).bondCount + 1 }) (i + 1)
        (fun q hq => hL q (List.mem_cons_of_mem b hq))
        (by rw [List.length_set, List.length_set]; exact hA)
      rw [h1, h2]
      rw [getD_set_self _ _ _ _ (by rw [List.length_set]; exact hA)]
      rw [getD_set_self _ _ _ _ hA]
      refine ⟨?_, rfl⟩
      simp only [List.length_cons]
      omega

/-- The reset atom table starts every bond count at zero. -/
theorem getD_map_bondCount (l : List AtomRow) (a : ℕ) (h : a < l.length) :
    ((l.map (fun r : AtomRow => { r with bondCount := 0 })).getD a
      {}).bondCount = 0 := by
  rw [List.getD_eq_getElem?_getD, List.getElem?_map,
    List.getElem?_eq_getElem h]
  rfl

/-- Every strategic bond entry has its mirror entry. -/
theorem calcBonds_mem_symm (s : Soup) (x y : ℕ)
    (h : (x, y) ∈ (s.calcBondsStrategic).bondStore) :
    (y, x) ∈ (s.calcBondsStrategic).bondStore := by
  have h2 : (x, y) ∈ (List.range s.getResidueCount).flatMap (fun r =>
      (resAtomIndices s r).flatMap (fun i =>
        (resAtomIndices s r).flatMap (fun j =>
          if s.isBonded i j then [(i, j), (j, i)] else []))) := h
  rw [List.mem_flatMap] at h2
  obtain ⟨r, hr, h3⟩ := h2
  rw [List.mem_flatMap] at h3
  obtain ⟨i, hi, h4⟩ := h3
  rw [List.mem_flatMap] at h4
  obtain ⟨j, hj, h5⟩ := h4
  by_cases hg : s.isBonded i j = true
  · rw [if_pos hg] at h5
    show (y, x) ∈ (List.range s.getResidueCount).flatMap (fun r =>
      (resAtomIndices s r).flatMap (fun i =>
        (resAtomIndices s r).flatMap (fun j =>
          if s.isBonded i j then [(i, j), (j, i)] else [])))
    rw [List.mem_flatMap]
    refine ⟨r, hr, ?_⟩
    rw [List.mem_flatMap]
    refine ⟨i, hi, ?_⟩
    rw [List.mem_flatMap]
    refine ⟨j, hj, ?_⟩
    rw [if_pos hg]
    simp only [List.mem_cons, List.not_mem_nil, or_false,
      Prod.mk.injEq] at h5 ⊢
    tauto
  · rw [if_neg hg] at h5
    cases h5

/-- The offset/count characterization of `assignBondsToAtoms`: for a valid
atom index, its bond count equals the number of sorted bond entries whose
first atom it is, and the offset/count window cut from the sorted table is
exactly the sublist of those entries. -/
theorem assignBonds_spec (t : Soup) (a : ℕ) (ha : a < t.getAtomCount) :
    (atomAt (t.assignBondsToAtoms) a).bondCount =
      (t.assignBondsToAtoms).bondStore.countP (fun q => q.1 = a) ∧
    ((t.assignBondsToAtoms).bondStore.drop
        (atomAt (t.assignBondsToAtoms) a).bondOffset).take
      (atomAt (t.assignBondsToAtoms) a).bondCount =
      (t.assignBondsToAtoms).bondStore.filter (fun q => q.1 = a) := by
  obtain ⟨P, R, T, hdec, hP, hR, hT⟩ :=
    sorted_decomp a (sortBonds t.bondStore) (sortBonds_pairwise t.bondStore)
  have hPne : ∀ b ∈ P, b.1 ≠ a := fun b hb => Nat.ne_of_lt (hP b hb)
  have hTne : ∀ b ∈ T, b.1 ≠ a := fun b hb => by
    have := hT b hb
    omega
  have hlenA0 : a < (t.atomStore.map (fun r =>
      ({ r with bondCount := 0 } : AtomRow))).length := by
    rw [List.length_map]
    exact ha
  have hatom : atomAt (t.assignBondsToAtoms) a =
      (assignScan (t.atomStore.map (fun r => { r with bondCount := 0 }))
        (sortBonds t.bondStore) 0 none).getD a {} := rfl
  have hbond : (t.assignBondsToAtoms).bondStore =
      sortBonds t.bondStore := rfl
  have hsplit : assignScan
      (t.atomStore.map (fun r => { r with bondCount := 0 }))
      (sortBonds t.bondStore) 0 none =
      assignScan (assignScan (assignScan
          (t.atomStore.map (fun r => { r with bondCount := 0 }))
          P 0 none) R (0 + P.length) (curAfter none P)) T
        (0 + (P ++ R).length) (curAfter none (P ++ R)) := by
    rw [hdec, assignScan_append, assignScan_append]
  have hphase1 : (assignScan
      (t.atomStore.map (fun r => { r with bondCount := 0 }))
      P 0 none).getD a {} =
      (t.atomStore.map (fun r => { r with bondCount := 0 })).getD a {} :=
    assignScan_getD_ne a P _ 0 none hPne
  have hc1 : curAfter none P ≠ some a := by
    rcases curAfter_cases P none with h | ⟨b, hb, h⟩
    · rw [h]
      simp
    · rw [h]
      intro hEq
      exact hPne b hb (Option.some.inj hEq)
  have hlenA1 : a < (assignScan
      (t.atomStore.map (fun r => { r with bondCount := 0 }))
      P 0 none).length := by
    rw [assignScan_length]
    exact hlenA0
  cases R with
  | nil =>
      have hfin : (assignScan (assignScan (assignScan
          (t.atomStore.map (fun r => { r with bondCount := 0 }))
          P 0 none) [] (0 + P.length) (curAfter none P)) T
          (0 + (P ++ ([] : List (ℕ × ℕ))).length)
          (curAfter none (P ++ ([] : List (ℕ × ℕ))))).getD a {} =
          (t.atomStore.map (fun r => { r with bondCount := 0 })).getD a {}
          := by
        rw [assignScan_getD_ne a T _ _ _ hTne]
        exact hphase1
      constructor
      · rw [hatom, hsplit, hfin, getD_map_bondCount t.atomStore a ha]
        rw [hbond, hdec, List.countP_append, List.countP_append]
        rw [List.countP_eq_zero.mpr (fun b hb => by
              simpa using hPne b hb)]
        rw [List.countP_nil]
        rw [List.countP_eq_zero.mpr (fun b hb => by
              simpa using hTne b hb)]
      · rw [hatom, hsplit, hfin, getD_map_bondCount t.atomStore a ha]
        rw [List.take_zero]
        rw [hbond, hdec, List.filter_append, List.filter_append]
        rw [List.filter_eq_nil_iff.mpr (fun b hb => by
              simpa using hPne b hb)]
        rw [List.filter_nil]
        rw [List.filter_eq_nil_iff.mpr (fun b hb => by
              simpa using hTne b hb)]
        rfl
  | cons r0 R2 =>
      obtain ⟨hcnt, hoff⟩ := assignScan_run a (r0 :: R2)
        (assignScan (t.atomStore.map (fun r => { r with bondCount := 0 }))
          P 0 none) (0 + P.length) (curAfter none P) hR
        (List.cons_ne_nil r0 R2) hc1 hlenA1
      have hTpres : (assignScan (assignScan (assignScan
          (t.atomStore.map (fun r => { r with bondCount := 0 }))
          P 0 none) (r0 :: R2) (0 + P.length) (curAfter none P)) T
          (0 + (P ++ r0 :: R2).length)
          (curAfter none (P ++ r0 :: R2))).getD a {} =
          (assignScan (assignScan
            (t.atomStore.map (fun r => { r with bondCount := 0 }))
            P 0 none) (r0 :: R2) (0 + P.length)
            (curAfter none P)).getD a {} :=
        assignScan_getD_ne a T _ _ _ hTne
      constructor
      · rw [hatom, hsplit, hTpres, hcnt, hphase1,
          getD_map_bondCount t.atomStore a ha]
        rw [hbond, hdec, List.countP_append, List.countP_append]
        rw [List.countP_eq_zero.mpr (fun b hb => by
              simpa using hPne b hb),
          List.countP_eq_length.mpr (fun b hb => by
              simpa using hR b hb),
          List.countP_eq_zero.mpr (fun b hb => by
              simpa using hTne b hb)]
        omega
      · rw [hatom, hsplit, hTpres, hcnt, hoff, hphase1,
          getD_map_bondCount t.atomStore a ha]
        rw [hbond, hdec, List.append_assoc]
        rw [List.drop_left' (show P.length = 0 + P.length by omega)]
        rw [List.take_left'
          (show (r0 :: R2).length = 0 + (r0 :: R2).length by omega)]
        rw [List.filter_append, List.filter_append]
        rw [List.filter_eq_nil_iff.mpr (fun b hb => by
              simpa using hPne b hb),
          List.filter_eq_self.mpr (fun b hb => by
              simpa using hR b hb),
          List.filter_eq_nil_iff.mpr (fun b hb => by
              simpa using hTne b hb)]
        simp

/-- **C3.** After bond inference and adjacency assignment, every bond entry
has its mirror entry in the bond table; and every valid atom's bond count
equals the number of sorted entries whose first atom it is, with the
offset/count window cutting exactly the run of those entries out of the
sorted table. -/
theorem C3_bond_symmetry_adjacency (s : Soup) (a : ℕ)
    (ha : a < s.getAtomCount) (p : ℕ × ℕ) :
    (p ∈ ((s.calcBondsStrategic).assignBondsToAtoms).bondStore →
      (p.2, p.1) ∈ ((s.calcBondsStrategic).assignBondsToAtoms).bondStore) ∧
    (atomAt ((s.calcBondsStrategic).assignBondsToAtoms) a).bondCount =
      ((s.calcBondsStrategic).assignBondsToAtoms).bondStore.countP
        (fun q => q.1 = a) ∧
    (((s.calcBondsStrategic).assignBondsToAtoms).bondStore.drop
        (atomAt ((s.calcBondsStrategic).assignBondsToAtoms) a).bondOffset
      ).take
      (atomAt ((s.calcBondsStrategic).assignBondsToAtoms) a).bondCount =
      ((s.calcBondsStrategic).assignBondsToAtoms).bondStore.filter
        (fun q => q.1 = a) := by
  refine ⟨?_, (assignBonds_spec (s.calcBondsStrategic) a ha).1,
    (assignBonds_spec (s.calcBondsStrategic) a ha).2⟩
  intro h
  have h2 := (sortBonds_perm ((s.calcBondsStrategic)).bondStore).mem_iff.mp h
  have h3 := calcBonds_mem_symm s p.1 p.2 (by rw [Prod.mk.eta]; exact h2)
  exact (sortBonds_perm ((s.calcBondsStrategic)).bondStore).mem_iff.mpr h3

/-! ### Claim C4: helix tagging -/

theorem isCONHBonded_frame {t u : Soup} (hf : FrameEq t u) (a b : ℤ) :
    t.isCONHBonded a b = u.isCONHBonded a b := by
  simp only [Soup.isCONHBonded]
  rw [show t.getResidueCount = u.getResidueCount from hf.1]
  rw [hf.2.2.2]

theorem betaEvidence_frame {t u : Soup} (hf : FrameEq t u) (i1 i2 : ℕ) :
    t.betaAnyEvidence i1 i2 = u.betaAnyEvidence i1 i2 := by
  simp only [Soup.betaAnyEvidence, Soup.betaPar1, Soup.betaPar2,
    Soup.betaAnti1, Soup.betaAnti2, isCONHBonded_frame hf]

theorem setSs_ssOf_self (s : Soup) (i : ℕ) (c : String)
    (h : i < s.residueStore.length) :
    (setSs s i c).ssOf i = intToChar (charToInt c) := by
  unfold Soup.ssOf setSs
  rw [resAt_setRes_self s i _ h]

theorem setSs_ssOf_ne (s : Soup) (i j : ℕ) (c : String) (h : j ≠ i) :
    (setSs s i c).ssOf j = s.ssOf j := by
  unfold Soup.ssOf setSs
  rw [resAt_setRes s i j _ h]

theorem setSs_H (s : Soup) (i j : ℕ) (hss : s.ssOf j = "H") :
    (setSs s i "H").ssOf j = "H" := by
  by_cases hij : j = i
  · rw [← hij]
    by_cases hb : j < s.residueStore.length
    · rw [setSs_ssOf_self s j "H" hb]
      decide
    · unfold Soup.ssOf setSs setRes resAt
      rw [List.set_eq_of_length_le (by omega)]
      exact hss
  · rw [setSs_ssOf_ne s i j "H" hij]
    exact hss

theorem ssOfH_ite {c : Prop} [Decidable c] {t u : Soup} (r' : ℕ)
    (h1 : t.ssOf r' = "H") (h2 : u.ssOf r' = "H") :
    (if c then t else u).ssOf r' = "H" := by
  split_ifs <;> assumption

/-- Generic fold lemma: a property established at a member of the list and
preserved by every step holds at the end, together with a side invariant
needed by the steps. -/
theorem foldl_estab {σ α : Type} (P Q : σ → Prop) (f : σ → α → σ) (r : α) :
    ∀ (l : List α) (s : σ), r ∈ l → Q s →
      (∀ t a, a ∈ l → Q t → Q (f t a)) →
      (∀ t a, a ∈ l → P t → Q t → P (f t a)) →
      (∀ t, Q t → P (f t r)) →
      P (l.foldl f s) ∧ Q (l.foldl f s)
  | [], _, hr, _, _, _, _ => absurd hr (List.not_mem_nil r)
  | a :: l, s, hr, hQ, hQp, hPp, hest => by
      rw [List.foldl_cons]
      rcases List.mem_cons.mp hr with rfl | hrl
      · have hPfa : P (f s r) := hest s hQ
        have hQfa : Q (f s r) := hQp s r hr hQ
        exact foldl_inv (fun u => P u ∧ Q u) f l (f s r)
          (fun u b hb hu =>
            ⟨hPp u b (List.mem_cons_of_mem _ hb) hu.1 hu.2,
             hQp u b (List.mem_cons_of_mem _ hb) hu.2⟩) ⟨hPfa, hQfa⟩
      · exact foldl_estab P Q f r l (f s a) hrl
          (hQp s a (List.mem_cons_self a l) hQ)
          (fun u b hb hQu => hQp u b (List.mem_cons_of_mem a hb) hQu)
          (fun u b hb hPu hQu => hPp u b (List.mem_cons_of_mem a hb) hPu hQu)
          hest

theorem mem_range2 (s n m : ℕ) :
    m ∈ List.range' s n ↔ s ≤ m ∧ m < s + n := by
  rw [List.mem_range']
  constructor
  · rintro ⟨i, hi, rfl⟩
    omega
  · intro h
    exact ⟨m - s, by omega, by omega⟩

theorem mem_ite_pair {c : Prop} [Decidable c] {i1 i2 r' : ℕ}
    (h : r' ∈ (if c then [i1, i2] else [])) : c ∧ (r' = i1 ∨ r' = i2) := by
  split_ifs at h with hc
  · refine ⟨hc, ?_⟩
    simpa using h
  · cases h

theorem foldl_setSs_ssOf (r' : ℕ) (c : String) (idxs : List ℕ) (t : Soup)
    (hmem : r' ∉ idxs) (v : String) (hss : t.ssOf r' = v) :
    (idxs.foldl (fun s j => setSs s j c) t).ssOf r' = v :=
  foldl_inv (fun u => u.ssOf r' = v) _ idxs t
    (fun u a ha hu => by
      show (setSs u a c).ssOf r' = v
      rw [setSs_ssOf_ne u a r' c (fun hEq => hmem (hEq ▸ ha))]
      exact hu) hss

/-- `betaStep` keeps an `H` tag on a residue no beta-sheet pattern
writes. -/
theorem betaStep_ssOf_pres (h t : Soup) (i1 i2 r' : ℕ) (hf : FrameEq t h)
    (hnb : ¬ BetaWrites h i1 i2 r') (hss : t.ssOf r' = "H") :
    (t.betaStep i1 i2).ssOf r' = "H" := by
  by_cases hd : |(i1 : ℤ) - (i2 : ℤ)| ≤ 5
  · have heq : t.betaStep i1 i2 = t := by
      simp only [Soup.betaStep]
      rw [if_pos hd]
    rw [heq]
    exact hss
  · simp only [Soup.betaStep]
    rw [if_neg hd]
    refine foldl_setSs_ssOf r' "E" _ _ ?_ "H" ?_
    · intro hmem
      simp only [List.mem_append] at hmem
      have hev : t.betaAnyEvidence i1 i2 = true ∧ (r' = i1 ∨ r' = i2) := by
        rcases hmem with ((h1 | h2) | h3) | h4
        · obtain ⟨hc, hor⟩ := mem_ite_pair h1
          exact ⟨by simp [Soup.betaAnyEvidence, hc], hor⟩
        · obtain ⟨hc, hor⟩ := mem_ite_pair h2
          exact ⟨by simp [Soup.betaAnyEvidence, hc], hor⟩
        · obtain ⟨hc, hor⟩ := mem_ite_pair h3
          exact ⟨by simp [Soup.betaAnyEvidence, hc], hor⟩
        · obtain ⟨hc, hor⟩ := mem_ite_pair h4
          exact ⟨by simp [Soup.betaAnyEvidence, hc], hor⟩
      exact hnb ⟨not_le.mp hd,
        by rw [← betaEvidence_frame hf]; exact hev.1, hev.2⟩
    · split_ifs <;> exact hss

theorem helixStep_ssOf (t : Soup) (j r' : ℕ) (n1 n2 : V3)
    (hss : t.ssOf r' = "H") :
    (pushNormal (pushNormal (setSs t j "H") j n1) j n2).ssOf r' = "H" :=
  setSs_H t j r' hss

theorem helixStep_ssOf_self (t : Soup) (j : ℕ) (n1 n2 : V3)
    (hb : j < t.residueStore.length) :
    (pushNormal (pushNormal (setSs t j "H") j n1) j n2).ssOf j = "H" := by
  show (setSs t j "H").ssOf j = "H"
  rw [setSs_ssOf_self t j "H" hb]
  decide

theorem helixFold_pres (r' : ℕ) (l : List ℕ) (n1 n2 : V3) (t : Soup)
    (hss : t.ssOf r' = "H") :
    (l.foldl (fun s j =>
      pushNormal (pushNormal (setSs s j "H") j n1) j n2) t).ssOf r'
      = "H" :=
  foldl_inv (fun u => u.ssOf r' = "H") _ l t
    (fun u a _ hu => helixStep_ssOf u a r' n1 n2 hu) hss

theorem helixFold_estab (r' : ℕ) (l : List ℕ) (n1 n2 : V3) (t : Soup)
    (hmem : r' ∈ l) (hb : r' < t.residueStore.length) :
    (l.foldl (fun s j =>
      pushNormal (pushNormal (setSs s j "H") j n1) j n2) t).ssOf r'
      = "H" :=
  (foldl_estab (fun u => u.ssOf r' = "H")
    (fun u => u.residueStore.length = t.residueStore.length)
    (fun s j => pushNormal (pushNormal (setSs s j "H") j n1) j n2) r' l t
    hmem rfl
    (fun u a _ hu => by
      have h1 : (setSs u a "H").residueStore.length =
          u.residueStore.length := setRes_resLen u a _
      show (setSs u a "H").residueStore.length = t.residueStore.length
      rw [h1]
      exact hu)
    (fun u a _ hP _ => helixStep_ssOf u a r' n1 n2 hP)
    (fun u hQ => helixStep_ssOf_self u r' n1 n2 (by
      rw [hQ]
      exact hb))).1

/-- One main-loop iteration, decomposed: a state `s2` after the helix
window that is frame-equal to the input, keeps `H` tags, and carries the
α-window writes; then the 3₁₀ window and the beta scan. -/
theorem ssMainIter_decomp2 (t : Soup) (k : ℕ) :
    ∃ (s2 : Soup) (n3 n4 : V3),
      FrameEq s2 t ∧
      (∀ j, t.ssOf j = "H" → s2.ssOf j = "H") ∧
      ((t.isCONHBonded k ((k : ℤ) + 4) &&
          t.isCONHBonded ((k : ℤ) + 1) ((k : ℤ) + 5)) = true →
        ∀ j, j ∈ List.range' (k + 1) 4 → j < t.residueStore.length →
          s2.ssOf j = "H") ∧
      t.ssMainIter k =
        (List.range' (k + 1)
          ((if s2.isCONHBonded k ((k : ℤ) + 3) &&
              s2.isCONHBonded ((k : ℤ) + 1) ((k : ℤ) + 4) then
            (List.range' (k + 1) 3).foldl (fun s j =>
              pushNormal (pushNormal (setSs s j "H") j n3) j n4) s2
          else s2).getResidueCount - (k + 1))).foldl
          (fun s i2 => s.betaStep k i2)
          (if s2.isCONHBonded k ((k : ℤ) + 3) &&
              s2.isCONHBonded ((k : ℤ) + 1) ((k : ℤ) + 4) then
            (List.range' (k + 1) 3).foldl (fun s j =>
              pushNormal (pushNormal (setSs s j "H") j n3) j n4) s2
          else s2) := by
  simp only [Soup.ssMainIter]
  refine ⟨_, _, _, ?_, ?_, ?_, rfl⟩
  · exact frameEq_ite
      (frameEq_trans (foldl_helix_frame _ _ _ _ _)
        (frameEq_ite (pushNormal_frame _ _ _) (frameEq_refl t)))
      (frameEq_ite (pushNormal_frame _ _ _) (frameEq_refl t))
  · intro j hj
    exact ssOfH_ite j
      (helixFold_pres j _ _ _ _ (ssOfH_ite j hj hj)) (ssOfH_ite j hj hj)
  · intro hcond j hjmem hjb
    have hf1 : FrameEq (if jsIncludesStr "DR" (t.ssOf k) then
        pushNormal t k (t.getNucleotideNormal k) else t) t :=
      frameEq_ite (pushNormal_frame _ _ _) (frameEq_refl t)
    rw [if_pos (show ((if jsIncludesStr "DR" (t.ssOf k) then
        pushNormal t k (t.getNucleotideNormal k) else t).isCONHBonded k
          ((k : ℤ) + 4) &&
        (if jsIncludesStr "DR" (t.ssOf k) then
        pushNormal t k (t.getNucleotideNormal k) else t).isCONHBonded
          ((k : ℤ) + 1) ((k : ℤ) + 5)) = true from by
      rw [isCONHBonded_frame hf1, isCONHBonded_frame hf1]
      exact hcond)]
    exact helixFold_estab j _ _ _ _ hjmem (by
      rw [hf1.1]
      exact hjb)

/-- The beta scan of one iteration keeps an `H` tag that no beta-sheet
pattern writes. -/
theorem betaFold_range_pres (h : Soup) (k r' : ℕ) (u : Soup)
    (hf : FrameEq u h) (hk : k < h.getResidueCount)
    (hnb : ∀ i1, i1 < h.getResidueCount → ∀ i2, i2 < h.getResidueCount →
      ¬ BetaWrites h i1 i2 r')
    (hss : u.ssOf r' = "H") :
    ((List.range' (k + 1) (u.getResidueCount - (k + 1))).foldl
      (fun s i2 => s.betaStep k i2) u).ssOf r' = "H" := by
  have hcount : u.getResidueCount = h.getResidueCount := hf.1
  have step : ∀ w b, b ∈ List.range' (k + 1)
        (u.getResidueCount - (k + 1)) →
      (w.ssOf r' = "H" ∧ FrameEq w h) →
      ((w.betaStep k b).ssOf r' = "H" ∧ FrameEq (w.betaStep k b) h) := by
    intro w b hb hw
    have hmem := (mem_range2 _ _ _).mp hb
    exact ⟨betaStep_ssOf_pres h w k b r' hw.2
        (hnb k hk b (by omega)) hw.1,
      frameEq_trans (betaStep_frame w k b) hw.2⟩
  exact (foldl_inv (fun w => w.ssOf r' = "H" ∧ FrameEq w h)
    (fun s i2 => s.betaStep k i2)
    (List.range' (k + 1) (u.getResidueCount - (k + 1))) u step
    ⟨hss, hf⟩).1

theorem ssMainIter_ssOf_pres (h t : Soup) (k r' : ℕ) (hf : FrameEq t h)
    (hk : k < h.getResidueCount)
    (hnb : ∀ i1, i1 < h.getResidueCount → ∀ i2, i2 < h.getResidueCount →
      ¬ BetaWrites h i1 i2 r')
    (hss : t.ssOf r' = "H") :
    (t.ssMainIter k).ssOf r' = "H" := by
  obtain ⟨s2, n3, n4, hf2', hpres, _, hEq⟩ := ssMainIter_decomp2 t k
  have hf2 : FrameEq s2 h := frameEq_trans hf2' hf
  have hs2H : s2.ssOf r' = "H" := hpres r' hss
  rw [hEq]
  refine betaFold_range_pres h k r' _ ?_ hk hnb ?_
  · exact frameEq_ite (frameEq_trans (foldl_helix_frame _ _ _ _ _) hf2) hf2
  · exact ssOfH_ite r' (helixFold_pres r' _ n3 n4 s2 hs2H) hs2H

theorem ssMainIter_estab_alpha (h t : Soup) (k r' : ℕ) (hf : FrameEq t h)
    (hc1 : h.isCONHBonded k ((k : ℤ) + 4) = true)
    (hc2 : h.isCONHBonded ((k : ℤ) + 1) ((k : ℤ) + 5) = true)
    (hr1 : k + 1 ≤ r') (hr2 : r' ≤ k + 4)
    (hk : k < h.getResidueCount) (hw : k + 4 < h.getResidueCount)
    (hnb : ∀ i1, i1 < h.getResidueCount → ∀ i2, i2 < h.getResidueCount →
      ¬ BetaWrites h i1 i2 r') :
    (t.ssMainIter k).ssOf r' = "H" := by
  obtain ⟨s2, n3, n4, hf2', hpres, hestab, hEq⟩ := ssMainIter_decomp2 t k
  have hf2 : FrameEq s2 h := frameEq_trans hf2' hf
  have hcond : (t.isCONHBonded k ((k : ℤ) + 4) &&
      t.isCONHBonded ((k : ℤ) + 1) ((k : ℤ) + 5)) = true := by
    rw [isCONHBonded_frame hf, isCONHBonded_frame hf, hc1, hc2]
    rfl
  have hs2H : s2.ssOf r' = "H" := by
    refine hestab hcond r' ((mem_range2 _ _ _).mpr ⟨hr1, by omega⟩) ?_
    have h1 := hf.1
    have h2 : h.getResidueCount = h.residueStore.length := rfl
    omega
  rw [hEq]
  refine betaFold_range_pres h k r' _ ?_ hk hnb ?_
  · exact frameEq_ite (frameEq_trans (foldl_helix_frame _ _ _ _ _) hf2) hf2
  · exact ssOfH_ite r' (helixFold_pres r' _ n3 n4 s2 hs2H) hs2H

theorem ssMainIter_estab_310 (h t : Soup) (k r' : ℕ) (hf : FrameEq t h)
    (hc1 : h.isCONHBonded k ((k : ℤ) + 3) = true)
    (hc2 : h.isCONHBonded ((k : ℤ) + 1) ((k : ℤ) + 4) = true)
    (hr1 : k + 1 ≤ r') (hr2 : r' ≤ k + 3)
    (hk : k < h.getResidueCount) (hw : k + 3 < h.getResidueCount)
    (hnb : ∀ i1, i1 < h.getResidueCount → ∀ i2, i2 < h.getResidueCount →
      ¬ BetaWrites h i1 i2 r') :
    (t.ssMainIter k).ssOf r' = "H" := by
  obtain ⟨s2, n3, n4, hf2', hpres, _, hEq⟩ := ssMainIter_decomp2 t k
  have hf2 : FrameEq s2 h := frameEq_trans hf2' hf
  have hcond : (s2.isCONHBonded k ((k : ℤ) + 3) &&
      s2.isCONHBonded ((k : ℤ) + 1) ((k : ℤ) + 4)) = true := by
    rw [isCONHBonded_frame hf2, isCONHBonded_frame hf2, hc1, hc2]
    rfl
  rw [hEq, if_pos hcond]
  refine betaFold_range_pres h k r' _ ?_ hk hnb ?_
  · exact frameEq_trans (foldl_helix_frame _ _ _ _ _) hf2
  · refine helixFold_estab r' _ n3 n4 s2
      ((mem_range2 _ _ _).mpr ⟨hr1, by omega⟩) ?_
    have h1 := hf2.1
    have h2 : h.getResidueCount = h.residueStore.length := rfl
    omega

theorem ssMainLoop_H (h : Soup) (i r' : ℕ) (hi : i < h.getResidueCount)
    (hnb : ∀ i1, i1 < h.getResidueCount → ∀ i2, i2 < h.getResidueCount →
      ¬ BetaWrites h i1 i2 r')
    (hest : ∀ t, FrameEq t h → (t.ssMainIter i).ssOf r' = "H") :
    (h.ssMainLoop).ssOf r' = "H" := by
  unfold Soup.ssMainLoop
  exact (foldl_estab (fun u => u.ssOf r' = "H") (fun u => FrameEq u h)
    (fun s k => s.ssMainIter k) i (List.range h.getResidueCount) h
    (List.mem_range.mpr hi) (frameEq_refl h)
    (fun u k _ hQ => frameEq_trans (ssMainIter_frame u k) hQ)
    (fun u k hk hP hQ => ssMainIter_ssOf_pres h u k r' hQ
      (List.mem_range.mp hk) hnb hP)
    (fun u hQ => hest u hQ)).1

theorem pushToListInDict_mem {V : Type} (d : ℕ → List V) (k : ℕ) (v : V)
    (k2 : ℕ) (x : V) (h : x ∈ d k2) : x ∈ pushToListInDict d k v k2 := by
  unfold pushToListInDict
  split_ifs with hk
  · rw [hk] at h
    exact List.mem_append.mpr (Or.inl h)
  · exact h

theorem pushToListInDict_self {V : Type} (d : ℕ → List V) (k : ℕ)
    (v : V) : v ∈ pushToListInDict d k v k := by
  unfold pushToListInDict
  rw [if_pos rfl]
  exact List.mem_append.mpr (Or.inr (List.mem_singleton.mpr rfl))

theorem hbondStep_partners_mono (t : Soup) (idxs : List ℕ) (p : ℕ × ℕ)
    (k x : ℕ) (h : x ∈ t.residueConhPartners k) :
    x ∈ (t.hbondStep idxs p).residueConhPartners k := by
  simp only [Soup.hbondStep]
  split_ifs <;>
    first
      | exact h
      | exact pushToListInDict_mem _ _ _ _ _ h

theorem hbondStep_elemTable (t : Soup) (idxs : List ℕ) (p : ℕ × ℕ) :
    (t.hbondStep idxs p).elemTable = t.elemTable := by
  simp only [Soup.hbondStep]
  split_ifs <;> rfl

theorem mem_allPairs (n i j : ℕ) (hij : i < j) (hj : j < n) :
    (i, j) ∈ allPairs n := by
  unfold allPairs
  rw [List.mem_flatMap]
  refine ⟨j, List.mem_range.mpr hj, ?_⟩
  rw [List.mem_map]
  exact ⟨i, List.mem_range.mpr hij, rfl⟩

/-- The step of `findBackboneHbonds` fires on a pair of positions holding
the backbone O and N of two distinct residues within the cutoff. -/
theorem hbondStep_fires (s t : Soup) (idxs : List ℕ) (a b jO jN : ℕ)
    (u1 u2 : ℕ)
    (hQa : t.atomStore = s.atomStore) (hQe : t.elemTable = s.elemTable)
    (hg1 : idxs.getD u1 0 = jO ∧ idxs.getD u2 0 = jN ∨
           idxs.getD u1 0 = jN ∧ idxs.getD u2 0 = jO)
    (heO : s.elemOf jO = "O") (heN : s.elemOf jN = "N")
    (hiO : (atomAt s jO).iRes = a) (hiN : (atomAt s jN).iRes = b)
    (hab : a ≠ b)
    (hdist : v3distSq (s.posOf jO) (s.posOf jN) ≤ hbondCutoffSq) :
    a ∈ (t.hbondStep idxs (u1, u2)).residueConhPartners b := by
  have helem : ∀ j, t.elemOf j = s.elemOf j := fun j => by
    unfold Soup.elemOf atomAt
    rw [hQa, hQe]
  have hatomAt : ∀ j, atomAt t j = atomAt s j := fun j => by
    unfold atomAt
    rw [hQa]
  have hpos : ∀ j, t.posOf j = s.posOf j := fun j => by
    unfold Soup.posOf
    rw [hatomAt j]
  simp only [Soup.hbondStep]
  rcases hg1 with ⟨h1, h2⟩ | ⟨h1, h2⟩
  · rw [h1, h2]
    rw [if_pos (show t.elemOf jO = "O" ∧ t.elemOf jN = "N" from
      ⟨by rw [helem jO]; exact heO, by rw [helem jN]; exact heN⟩)]
    rw [if_pos (show t.elemOf jN = "N" ∧ t.elemOf jO = "O" from
      ⟨by rw [helem jN]; exact heN, by rw [helem jO]; exact heO⟩)]
    rw [hatomAt jN, hatomAt jO, hiN, hiO]
    rw [if_neg (show ¬(b = a) from fun hEq => hab hEq.symm)]
    rw [if_pos (show v3distSq (t.posOf jN) (t.posOf jO) ≤ hbondCutoffSq
      from by rw [hpos jN, hpos jO, v3distSq_comm]; exact hdist)]
    exact pushToListInDict_self _ b a
  · rw [h1, h2]
    rw [if_neg (show ¬(t.elemOf jN = "O" ∧ t.elemOf jO = "N") from by
      intro hco
      rw [helem jN, heN] at hco
      exact absurd hco.1 (by decide))]
    rw [if_pos (show t.elemOf jN = "N" ∧ t.elemOf jO = "O" from
      ⟨by rw [helem jN]; exact heN, by rw [helem jO]; exact heO⟩)]
    rw [hatomAt jN, hatomAt jO, hiN, hiO]
    rw [if_neg (show ¬(b = a) from fun hEq => hab hEq.symm)]
    rw [if_pos (show v3distSq (t.posOf jN) (t.posOf jO) ≤ hbondCutoffSq
      from by rw [hpos jN, hpos jO, v3distSq_comm]; exact hdist)]
    exact pushToListInDict_self _ b a

/-- Backbone O/N geometry puts the O-residue into the N-residue's partner
list after `findBackboneHbonds`. -/
theorem geoHbond_partner (s : Soup) (a b : ℕ) (hg : GeoHbond s a b) :
    a ∈ (s.findBackboneHbonds).residueConhPartners b := by
  obtain ⟨jO, jN, hO, hN, heO, heN, hiO, hiN, hpO, hpN, haC, hbC, hab,
    hdist⟩ := hg
  have hjO : jO ∈ s.collectBackboneON := by
    unfold Soup.collectBackboneON
    rw [List.mem_flatMap]
    refine ⟨a, List.mem_range.mpr haC, ?_⟩
    rw [if_pos hpO, List.mem_filterMap]
    exact ⟨"O", by simp, hO⟩
  have hjN : jN ∈ s.collectBackboneON := by
    unfold Soup.collectBackboneON
    rw [List.mem_flatMap]
    refine ⟨b, List.mem_range.mpr hbC, ?_⟩
    rw [if_pos hpN, List.mem_filterMap]
    exact ⟨"N", by simp, hN⟩
  have hne : jO ≠ jN := by
    intro hEq
    rw [hEq, heN] at heO
    exact absurd heO (by decide)
  obtain ⟨uO, huO, hgO⟩ := List.mem_iff_getElem.mp hjO
  obtain ⟨uN, huN, hgN⟩ := List.mem_iff_getElem.mp hjN
  have hgO2 : (s.collectBackboneON).getD uO 0 = jO := by
    rw [List.getD_eq_getElem?_getD, List.getElem?_eq_getElem huO]
    exact hgO
  have hgN2 : (s.collectBackboneON).getD uN 0 = jN := by
    rw [List.getD_eq_getElem?_getD, List.getElem?_eq_getElem huN]
    exact hgN
  have hune : uO ≠ uN := by
    intro hEq
    rw [hEq, hgN2] at hgO2
    exact hne hgO2.symm
  have hpick : ∃ u1 u2, (u1, u2) ∈ allPairs (s.collectBackboneON).length ∧
      ((s.collectBackboneON).getD u1 0 = jO ∧
        (s.collectBackboneON).getD u2 0 = jN ∨
       (s.collectBackboneON).getD u1 0 = jN ∧
        (s.collectBackboneON).getD u2 0 = jO) := by
    rcases Nat.lt_or_ge uO uN with hlt | hge
    · exact ⟨uO, uN, mem_allPairs _ uO uN hlt huN, Or.inl ⟨hgO2, hgN2⟩⟩
    · have hlt : uN < uO := by omega
      exact ⟨uN, uO, mem_allPairs _ uN uO hlt huO, Or.inr ⟨hgN2, hgO2⟩⟩
  obtain ⟨u1, u2, hmempair, hg1⟩ := hpick
  show a ∈ ((allPairs (s.collectBackboneON).length).foldl
    (fun t p => t.hbondStep s.collectBackboneON p) s).residueConhPartners b
  refine (foldl_estab (fun t => a ∈ t.residueConhPartners b)
    (fun t => t.atomStore = s.atomStore ∧ t.elemTable = s.elemTable)
    (fun t p => t.hbondStep s.collectBackboneON p) (u1, u2)
    (allPairs (s.collectBackboneON).length) s hmempair ⟨rfl, rfl⟩
    (fun t p _ hQ => ⟨(hbondStep_core t _ p).2.1.trans hQ.1,
      (hbondStep_elemTable t _ p).trans hQ.2⟩)
    (fun t p _ hP _ => hbondStep_partners_mono t _ p b a hP)
    (fun t hQ => hbondStep_fires s t _ a b jO jN u1 u2 hQ.1 hQ.2 hg1
      heO heN hiO hiN hab hdist)).1

/-- A successful partner test implies both residue indices are in
range. -/
theorem isCONHBonded_bounds (s : Soup) (a b : ℤ)
    (h : s.isCONHBonded a b = true) :
    0 ≤ a ∧ a < (s.getResidueCount : ℤ) ∧ 0 ≤ b ∧
      b < (s.getResidueCount : ℤ) := by
  simp only [Soup.isCONHBonded] at h
  split_ifs at h with h1 h2
  all_goals
    first
      | (push_neg at h1 h2; exact ⟨h2.1, h2.2, h1.1, h1.2⟩)
      | simp at h

/-- Geometry implies the directed partner test succeeds. -/
theorem geo_isCONH (s : Soup) (a b : ℕ) (hg : GeoHbond s a b) :
    (s.findBackboneHbonds).isCONHBonded a b = true := by
  have hmem := geoHbond_partner s a b hg
  obtain ⟨jO, jN, hO, hN, heO, heN, hiO, hiN, hpO, hpN, haC, hbC, hab,
    hdist⟩ := hg
  have hcount : (s.findBackboneHbonds).getResidueCount =
      s.getResidueCount := congrArg List.length (hbonds_core s).1
  simp only [Soup.isCONHBonded]
  rw [if_neg (show ¬((b : ℤ) < 0 ∨
      ((s.findBackboneHbonds).getResidueCount : ℤ) ≤ (b : ℤ)) from by
    rw [hcount]
    omega)]
  rw [if_neg (show ¬((a : ℤ) < 0 ∨
      ((s.findBackboneHbonds).getResidueCount : ℤ) ≤ (a : ℤ)) from by
    rw [hcount]
    omega)]
  simp only [Int.toNat_natCast, decide_eq_true_eq]
  exact hmem

/-- **C4 (amended).** When the directed partner relation holds for
`(i, i+4)` and `(i+1, i+5)` and no beta-sheet pattern writes into the
window, the final secondary structure tags residues `i+1 .. i+4` as `H`;
likewise `(i, i+3)` and `(i+1, i+4)` tag `i+1 .. i+3`; and backbone O/N
geometry within 3.5Å between two polymer residues implies the directed
partner relation.  (Without the no-beta-write hypothesis the original
claim fails: a later beta-sheet pattern overwrites the `H` tag with
`E`.) -/
theorem C4_helix_tagging_amended (s : Soup) (i : ℕ)
    (hnb : ∀ i1, i1 < (s.findBackboneHbonds).getResidueCount →
      ∀ i2, i2 < (s.findBackboneHbonds).getResidueCount →
      ∀ r, r ≤ i + 4 → i + 1 ≤ r →
        ¬ BetaWrites (s.findBackboneHbonds) i1 i2 r) :
    ((s.findBackboneHbonds).isCONHBonded i ((i : ℤ) + 4) = true →
      (s.findBackboneHbonds).isCONHBonded ((i : ℤ) + 1) ((i : ℤ) + 5)
        = true →
      ∀ r, i + 1 ≤ r → r ≤ i + 4 →
        (s.findSecondaryStructure).ssOf r = "H") ∧
    ((s.findBackboneHbonds).isCONHBonded i ((i : ℤ) + 3) = true →
      (s.findBackboneHbonds).isCONHBonded ((i : ℤ) + 1) ((i : ℤ) + 4)
        = true →
      ∀ r, i + 1 ≤ r → r ≤ i + 3 →
        (s.findSecondaryStructure).ssOf r = "H") ∧
    (∀ a b, GeoHbond s a b →
      (s.findBackboneHbonds).isCONHBonded a b = true) := by
  have hfinal : ∀ r, (s.findSecondaryStructure).ssOf r =
      ((s.findBackboneHbonds).ssMainLoop).ssOf r := by
    intro r
    exact (ssOf_congr (flipPass_core _).1 r).trans
      (ssOf_congr (averageNormals_core _).1 r)
  refine ⟨?_, ?_, fun a b hg => geo_isCONH s a b hg⟩
  · intro hc1 hc2 r hr1 hr2
    obtain ⟨-, -, -, hb4⟩ := isCONHBonded_bounds _ _ _ hc1
    rw [hfinal r]
    refine ssMainLoop_H (s.findBackboneHbonds) i r (by omega)
      (fun i1 h1 i2 h2 => hnb i1 h1 i2 h2 r hr2 hr1)
      (fun t hf => ssMainIter_estab_alpha (s.findBackboneHbonds) t i r hf
        hc1 hc2 hr1 hr2 (by omega) (by omega)
        (fun i1 h1 i2 h2 => hnb i1 h1 i2 h2 r hr2 hr1))
  · intro hc1 hc2 r hr1 hr2
    obtain ⟨-, -, -, hb4⟩ := isCONHBonded_bounds _ _ _ hc2
    rw [hfinal r]
    refine ssMainLoop_H (s.findBackboneHbonds) i r (by omega)
      (fun i1 h1 i2 h2 => hnb i1 h1 i2 h2 r (by omega) hr1)
      (fun t hf => ssMainIter_estab_310 (s.findBackboneHbonds) t i r hf
        hc1 hc2 hr1 hr2 (by omega) (by omega)
        (fun i1 h1 i2 h2 => hnb i1 h1 i2 h2 r (by omega) hr1))

/-! ### Concrete instances

The rational arithmetic of the fixtures is evaluated by `decide`; the
`Rat` operations are made semireducible for these closed computations. -/

attribute [local semireducible] Rat.add Rat.mul Rat.inv Rat.sub
  Rat.ofScientific

set_option maxHeartbeats 1000000 in
set_option maxRecDepth 10000 in
/-- **C2.** The staged `AtomProxy` exposes no `alt` getter, so the
alternate-location rejection of `isBonded` compares `undefined` with
`undefined` and never fires: two carbon atoms 1Å apart with the differing
stored alternate-location codes `A` and `B` are bonded by the program,
although the specified test rejects the pair regardless of distance. -/
theorem C2_altloc_rejection_dead :
    storedAlt c2Soup 0 = "A" ∧ storedAlt c2Soup 1 = "B" ∧
    c2Soup.isBonded 0 1 = true ∧
    ¬ claimIsBonded (c2Soup.elemOf 0) (c2Soup.elemOf 1)
        (storedAlt c2Soup 0) (storedAlt c2Soup 1)
        (c2Soup.posOf 0) (c2Soup.posOf 1) := by
  decide

set_option maxHeartbeats 1000000 in
set_option maxRecDepth 10000 in
theorem C3_bond_symmetry_adjacency_witness :
    ((0, 1) ∈ ((c3Soup.calcBondsStrategic).assignBondsToAtoms).bondStore →
      (1, 0) ∈
        ((c3Soup.calcBondsStrategic).assignBondsToAtoms).bondStore) ∧
    (atomAt ((c3Soup.calcBondsStrategic).assignBondsToAtoms) 0).bondCount =
      ((c3Soup.calcBondsStrategic).assignBondsToAtoms).bondStore.countP
        (fun q => q.1 = 0) ∧
    ((((c3Soup.calcBondsStrategic).assignBondsToAtoms).bondStore.drop
        (atomAt ((c3Soup.calcBondsStrategic).assignBondsToAtoms)
          0).bondOffset).take
      (atomAt ((c3Soup.calcBondsStrategic).assignBondsToAtoms)
        0).bondCount =
      ((c3Soup.calcBondsStrategic).assignBondsToAtoms).bondStore.filter
        (fun q => q.1 = 0)) :=
  C3_bond_symmetry_adjacency c3Soup 0 (by decide) (0, 1)

set_option maxHeartbeats 1000000 in
set_option maxRecDepth 10000 in
theorem C4_helix_tagging_cex :
    (c4Soup.findBackboneHbonds).isCONHBonded 0 4 = true ∧
    (c4Soup.findBackboneHbonds).isCONHBonded 1 5 = true ∧
    (c4Soup.findSecondaryStructure).ssOf 1 = "E" ∧
    ¬ (c4Soup.findSecondaryStructure).ssOf 1 = "H" := by
  decide

set_option maxHeartbeats 4000000 in
set_option maxRecDepth 10000 in
theorem C4_helix_tagging_amended_witness :
    (c4wSoup.findSecondaryStructure).ssOf 1 = "H" ∧
    (c4wSoup.findSecondaryStructure).ssOf 2 = "H" ∧
    (c4wSoup.findSecondaryStructure).ssOf 3 = "H" ∧
    (c4wSoup.findSecondaryStructure).ssOf 4 = "H" := by
  have h := C4_helix_tagging_amended c4wSoup 0 (by decide)
  exact ⟨h.1 (by decide) (by decide) 1 (by decide) (by decide),
    h.1 (by decide) (by decide) 2 (by decide) (by decide),
    h.1 (by decide) (by decide) 3 (by decide) (by decide),
    h.1 (by decide) (by decide) 4 (by decide) (by decide)⟩

set_option maxHeartbeats 1000000 in
set_option maxRecDepth 10000 in
theorem C5_malformed_line_behavior :
    (Soup.empty.makeAtomsFromPdbLines c5Text "1xxx").getAtomCount = 1 ∧
    (Soup.empty.makeAtomsFromPdbLines c5Text "1xxx").parsingError = "" ∧
    (parseAtomFields c5Text).x = none := by
  decide

set_option maxHeartbeats 1000000 in
set_option maxRecDepth 10000 in
theorem C6_no_atom_lines_witness :
    (Soup.empty.load "1abc" c6Text).getAtomCount = 0 ∧
      (Soup.empty.load "1abc" c6Text).getResidueCount = 0 ∧
      (Soup.empty.load "1abc" c6Text).parsingError ≠ "" :=
  C6_no_atom_lines "1abc" c6Text (by decide)

set_option maxHeartbeats 1000000 in
set_option maxRecDepth 10000 in
theorem C7_sheet_normal_consistency_witness :
    0 < 1 ∧ 0 ≤ v3dot (⟨1, 0, 0⟩ : V3) ⟨1, 0, 0⟩ :=
  ⟨by decide, C7_sheet_normal_consistency c7Soup 1 (by decide) (by decide)
    (by decide) (by decide) ⟨1, 0, 0⟩ ⟨1, 0, 0⟩ (by decide) (by decide)⟩

set_option maxHeartbeats 1000000 in
set_option maxRecDepth 10000 in
theorem C8_central_atom_behavior :
    (resAt (c8Soup.assignResidueSsAndCentralAtoms) 0).iCentralAtom = 1 ∧
    v3distSq (c8Soup.getCenter (resAtomIndices c8Soup 0))
        (c8Soup.posOf 0) <
      v3distSq (c8Soup.getCenter (resAtomIndices c8Soup 0))
        (c8Soup.posOf 1) ∧
    v3distSq (c8Soup.getCenter (resAtomIndices c8Soup 0))
        (c8Soup.posOf 0) <
      v3distSq (c8Soup.getCenter (resAtomIndices c8Soup 0))
        (c8Soup.posOf 2) := by
  decide

set_option maxHeartbeats 1000000 in
set_option maxRecDepth 10000 in
theorem C9_maxlength_cex :
    (Soup.empty.load "1abc" c9Text).getAtomCount = 1 ∧
    (Soup.empty.load "1abc" c9Text).maxLength = 10 ∧
    claimMaxLength (Soup.empty.load "1abc" c9Text) = 0 ∧
    (10 : ℚ) ≠ 0 := by
  decide

set_option maxHeartbeats 1000000 in
set_option maxRecDepth 10000 in
theorem C10_strategic_multiplicity_witness :
    (c10Soup.calcBondsStrategic).bondStore.count (0, 0) = 2 ∧
    (c10Soup.calcBondsStrategic).bondStore.count (0, 1) = 2 ∧
    (c10Soup.calcBondsStrategic).bondStore.count (1, 0) = 2 :=
  C10_strategic_multiplicity c10Soup (by decide) 0 1 0 (by decide)
    (by decide) (by decide) (by decide) (by decide) (by decide) (by decide)

end Jolecule
